import Mathlib

/-!
Verification of the MyFinGPT-POC multi-agent orchestration core.

This file gives a shallow embedding of the parts of the program that the
checked properties talk about: the shared `AgentState` context and its
`StateManager` operations (src/src/orchestrator/state.py), the guardrails
symbol extraction (src/basic_agent_version/src/utils/guardrails.py), the
parallelization worker budgets (src/src/utils/parallelization.py), the
unified multi-source dispatcher (src/basic_agent_version/src/mcp/mcp_client.py
with src/basic_agent_version/src/utils/integration_config.py), and the HTTP
retry loop (src/src/mcp/mcp_base.py).

Python dictionaries are embedded as association lists with Python's
insertion-order update semantics; Python exceptions are embedded as
`Except`/`Option` results; wall-clock inputs (timestamps, per-attempt HTTP
outcomes, per-source payloads) are passed in explicitly.
-/

namespace FinGPT

/-! ## Association lists with Python dict semantics

A Python `dict` is embedded as a `List (κ × α)` with no duplicate keys.
`d[k] = v` keeps the position of an existing key and appends a new one;
`d.update(other)` folds that assignment over `other` in order.
-/

/-- Python `d[k]` (as `d.get(k)`): first binding whose key matches. -/
def dictGet {κ α : Type} [DecidableEq κ] : List (κ × α) → κ → Option α
  | [], _ => none
  | p :: t, k => if p.1 = k then some p.2 else dictGet t k

/-- Replace the value at every pair whose key is `k` (positions kept). -/
def replaceKey {κ α : Type} [DecidableEq κ] (m : List (κ × α)) (k : κ) (v : α) :
    List (κ × α) :=
  m.map (fun p => if p.1 = k then (p.1, v) else p)

/-- Python `k in d`. -/
def hasKey {κ α : Type} [DecidableEq κ] (m : List (κ × α)) (k : κ) : Bool :=
  m.any (fun p => decide (p.1 = k))

/-- Python `d[k] = v`: update in place if the key exists, else append. -/
def dictUpd {κ α : Type} [DecidableEq κ] (m : List (κ × α)) (k : κ) (v : α) :
    List (κ × α) :=
  if hasKey m k then replaceKey m k v else m ++ [(k, v)]

/-- Python `d.update(l)`: apply `d[k] = v` for each pair of `l` in order. -/
def dictUpdate {κ α : Type} [DecidableEq κ] (m l : List (κ × α)) : List (κ × α) :=
  l.foldl (fun acc p => dictUpd acc p.1 p.2) m

/-- The keys of an association list. -/
def dictKeys {κ α : Type} (m : List (κ × α)) : List κ :=
  m.map (fun p => p.1)

/-- Two association lists denote the same map: lookup agrees on every key. -/
def mapEquiv {κ α : Type} [DecidableEq κ] (m₁ m₂ : List (κ × α)) : Prop :=
  ∀ k, dictGet m₁ k = dictGet m₂ k

/-! ## ParallelizationStrategy (src/src/utils/parallelization.py) -/

/-- `ParallelizationStrategy.MAX_WORKERS_DATA_FETCHING`. -/
def MAX_WORKERS_DATA_FETCHING : Nat := 20

/-- `ParallelizationStrategy.MAX_WORKERS_ANALYSIS`. -/
def MAX_WORKERS_ANALYSIS : Nat := 16

/-- `ParallelizationStrategy.DATA_TYPES_PER_SYMBOL`. -/
def DATA_TYPES_PER_SYMBOL : Nat := 5

/-- `ParallelizationStrategy.ANALYSIS_TYPES_PER_SYMBOL`. -/
def ANALYSIS_TYPES_PER_SYMBOL : Nat := 4

/-- `ParallelizationStrategy.get_max_workers_data_fetching`: returns
`DATA_TYPES_PER_SYMBOL` on an empty symbol list, else
`min(len(symbols) * 5, 20)`. -/
def get_max_workers_data_fetching (symbols : List String) : Nat :=
  if symbols.isEmpty then DATA_TYPES_PER_SYMBOL
  else min (symbols.length * DATA_TYPES_PER_SYMBOL) MAX_WORKERS_DATA_FETCHING

/-- `ParallelizationStrategy.get_max_workers_analysis`: returns
`ANALYSIS_TYPES_PER_SYMBOL` on an empty symbol list, else
`min(len(symbols) * 4, 16)`. -/
def get_max_workers_analysis (symbols : List String) : Nat :=
  if symbols.isEmpty then ANALYSIS_TYPES_PER_SYMBOL
  else min (symbols.length * ANALYSIS_TYPES_PER_SYMBOL) MAX_WORKERS_ANALYSIS

/-! ## The shared context: AgentState (src/src/orchestrator/state.py)

Opaque payloads (per-symbol research/analysis dict values, serialized event
remainders) are embedded by their serialized form, a `String`: the
StateManager only moves them around and compares them, never inspects them.
Float second counts are embedded as `Int`. A metadata dict is embedded as
`MetaVal`: its `timestamp` is replaced by the age in seconds at prune time
(`none` when the dict has no parseable timestamp), the rest of the dict by
its serialized form.
-/

/-- A `research_metadata` value. -/
structure MetaVal where
  age : Option Nat
  rest : String
deriving DecidableEq, Repr

/-- A citation record as built by `StateManager.add_citation`. -/
structure Citation where
  source : String
  url : Option String
  date : String
  agent : Option String
  data_point : Option String
deriving DecidableEq, Repr

/-- A progress event; fields beyond the ones the ProgressTracker views
inspect are kept in serialized form in `rest`. -/
structure PEvent where
  event_type : String
  agent : Option String
  task_name : Option String
  timestamp : String
  rest : String
deriving DecidableEq, Repr

/-- The `AgentState` TypedDict of src/src/orchestrator/state.py. -/
structure AgentState where
  transaction_id : String
  query : String
  query_type : String
  symbols : List String
  research_data : List (String × String)
  research_metadata : List (String × MetaVal)
  analysis_results : List (String × String)
  analysis_reasoning : List (String × String)
  sentiment_analysis : List (String × String)
  trend_analysis : List (String × String)
  comparison_data : List (String × String)
  citations : List Citation
  vector_db_references : List String
  token_usage : List (String × Int)
  execution_time : List (String × Int)
  final_report : String
  visualizations : List (String × String)
  context_version : Nat
  context_size : Nat
  agents_executed : List String
  progress_events : List PEvent
  current_agent : Option String
  current_tasks : List (Option String × List String)
  execution_order : List String
  previous_query_id : Option String
  previous_symbols : List String
  new_symbols : List String
  is_incremental : Bool
  session_id : Option String
  partial_success : Bool
  symbol_status : List (String × String)
  symbol_errors : List (String × String)
  query_embedding : Option (List Int)
  similar_queries : List String
  related_context_ids : List String
deriving DecidableEq, Repr

/-- `StateManager.create_initial_state` with all four arguments supplied
(the `None`-defaulted derivations are separate code paths). -/
def create_initial_state (query : String) (query_type : String)
    (symbols : List String) (transaction_id : String) : AgentState where
  transaction_id := transaction_id
  query := query
  query_type := query_type
  symbols := symbols
  research_data := []
  research_metadata := []
  analysis_results := []
  analysis_reasoning := []
  sentiment_analysis := []
  trend_analysis := []
  comparison_data := []
  citations := []
  vector_db_references := []
  token_usage := []
  execution_time := []
  final_report := ""
  visualizations := []
  context_version := 1
  context_size := 0
  agents_executed := []
  progress_events := []
  current_agent := none
  current_tasks := []
  execution_order := []
  previous_query_id := none
  previous_symbols := []
  new_symbols := []
  is_incremental := false
  session_id := none
  partial_success := false
  symbol_status := []
  symbol_errors := []
  query_embedding := none
  similar_queries := []
  related_context_ids := []

/-! ### Size accounting (`StateManager.calculate_context_size`)

The code serializes the whole state with `json.dumps` and counts UTF-8
bytes.  The embedding assigns each field a definite byte count that mirrors
the JSON rendering; in particular the two integer counters contribute the
length of their decimal representation, so the serialized size depends on
the current `context_size` value just as `json.dumps(state)` does. -/

/-- Decimal digit count, as `json.dumps` renders a non-negative int. -/
def natDigits (n : Nat) : Nat := (Nat.repr n).length

/-- Bytes of a JSON string literal. -/
def strSize (s : String) : Nat := s.length + 2

/-- Bytes of a nullable JSON string. -/
def optStrSize : Option String → Nat
  | none => 4
  | some s => strSize s

/-- Bytes of a JSON int (possibly negative). -/
def intSize (i : Int) : Nat := (Int.repr i).length

/-- Bytes of a JSON array given element sizes. -/
def listSize {α : Type} (f : α → Nat) (l : List α) : Nat :=
  2 + l.foldl (fun a x => a + f x + 1) 0

/-- Bytes of a JSON object with string keys given value sizes. -/
def dictSize {α : Type} (f : α → Nat) (m : List (String × α)) : Nat :=
  2 + m.foldl (fun a p => a + strSize p.1 + 2 + f p.2 + 1) 0

/-- Bytes of a serialized metadata value. -/
def metaValSize (m : MetaVal) : Nat :=
  (match m.age with
    | none => 4
    | some a => natDigits a) + m.rest.length + 4

/-- Bytes of a serialized citation. -/
def citationSize (c : Citation) : Nat :=
  strSize c.source + optStrSize c.url + strSize c.date + optStrSize c.agent +
    optStrSize c.data_point + 60

/-- Bytes of a serialized progress event. -/
def peventSize (e : PEvent) : Nat :=
  strSize e.event_type + optStrSize e.agent + optStrSize e.task_name +
    strSize e.timestamp + e.rest.length + 60

/-- Bytes of a JSON bool. -/
def boolSize : Bool → Nat
  | true => 4
  | false => 5

/-- Bytes of the per-agent task map. -/
def tasksSize (m : List (Option String × List String)) : Nat :=
  2 + m.foldl (fun a p => a + optStrSize p.1 + 2 + listSize strSize p.2 + 1) 0

/-- `StateManager.calculate_context_size`: byte size of the serialized
state.  The trailing constant stands for the field names and separators. -/
def calculate_context_size (s : AgentState) : Nat :=
  strSize s.transaction_id + strSize s.query + strSize s.query_type +
  listSize strSize s.symbols +
  dictSize strSize s.research_data +
  dictSize metaValSize s.research_metadata +
  dictSize strSize s.analysis_results +
  dictSize strSize s.analysis_reasoning +
  dictSize strSize s.sentiment_analysis +
  dictSize strSize s.trend_analysis +
  dictSize strSize s.comparison_data +
  listSize citationSize s.citations +
  listSize strSize s.vector_db_references +
  dictSize intSize s.token_usage +
  dictSize intSize s.execution_time +
  strSize s.final_report +
  dictSize strSize s.visualizations +
  natDigits s.context_version +
  natDigits s.context_size +
  listSize strSize s.agents_executed +
  listSize peventSize s.progress_events +
  optStrSize s.current_agent +
  tasksSize s.current_tasks +
  listSize strSize s.execution_order +
  optStrSize s.previous_query_id +
  listSize strSize s.previous_symbols +
  listSize strSize s.new_symbols +
  boolSize s.is_incremental +
  optStrSize s.session_id +
  boolSize s.partial_success +
  dictSize strSize s.symbol_status +
  dictSize strSize s.symbol_errors +
  (match s.query_embedding with
    | none => 4
    | some l => listSize intSize l) +
  listSize strSize s.similar_queries +
  listSize strSize s.related_context_ids +
  700

/-- `StateManager.update_context_size`. -/
def update_context_size (s : AgentState) : AgentState :=
  { s with context_size := calculate_context_size s }

/-! ### StateManager write operations -/

/-- `StateManager.update_research_data`: set the symbol's data, optionally
its metadata (skipped for a falsy metadata argument), and bump the context
version. -/
def update_research_data (s : AgentState) (symbol : String) (data : String)
    (metadata : Option MetaVal) : AgentState :=
  let s1 := { s with research_data := dictUpd s.research_data symbol data }
  let s2 := match metadata with
    | some md => { s1 with research_metadata := dictUpd s1.research_metadata symbol md }
    | none => s1
  { s2 with context_version := s2.context_version + 1 }

/-- `StateManager.update_analysis_results`: set the symbol's results,
optionally its reasoning (a falsy — empty — reasoning string is skipped),
and bump the context version. -/
def update_analysis_results (s : AgentState) (symbol : String) (results : String)
    (reasoning : Option String) : AgentState :=
  let s1 := { s with analysis_results := dictUpd s.analysis_results symbol results }
  let s2 := match reasoning with
    | some r =>
        if r = "" then s1
        else { s1 with analysis_reasoning := dictUpd s1.analysis_reasoning symbol r }
    | none => s1
  { s2 with context_version := s2.context_version + 1 }

/-- `StateManager.add_citation`: append a citation record; `now` stands for
`datetime.now().isoformat()`, used when no (truthy) date is supplied. -/
def add_citation (s : AgentState) (source : String) (url : Option String)
    (date : Option String) (agent : Option String) (data_point : Option String)
    (now : String) : AgentState :=
  let d := match date with
    | some d₀ => if d₀ = "" then now else d₀
    | none => now
  { s with citations := s.citations ++ [⟨source, url, d, agent, data_point⟩] }

/-- `StateManager.track_token_usage`: additive per-agent token tally. -/
def track_token_usage (s : AgentState) (agent_name : String) (tokens : Int) :
    AgentState :=
  let cur := match dictGet s.token_usage agent_name with
    | some v => v
    | none => 0
  { s with token_usage := dictUpd s.token_usage agent_name (cur + tokens) }

/-- `StateManager.track_execution_time`: overwrite per-agent seconds. -/
def track_execution_time (s : AgentState) (agent_name : String) (seconds : Int) :
    AgentState :=
  { s with execution_time := dictUpd s.execution_time agent_name seconds }

/-- `StateManager.mark_agent_executed`: idempotent append. -/
def mark_agent_executed (s : AgentState) (agent_name : String) : AgentState :=
  if agent_name ∈ s.agents_executed then s
  else { s with agents_executed := s.agents_executed ++ [agent_name] }

/-- The agent names in the fixed order the compiled LangGraph pipeline runs
its nodes (`MyFinGPTGraph._build_graph`, src/src/orchestrator/graph.py:49-64:
research → analyst → comparison → reporting), each node's agent named as its
constructor passes to `BaseAgent.__init__`. -/
def AGENT_PIPELINE : List String :=
  ["Research Agent", "Analyst Agent", "Comparison Agent", "Reporting Agent"]

/-- The `agents_executed` marks made by the first `k` pipeline nodes:
`BaseAgent.run` calls `mark_agent_executed` once with its own name
(src/src/agents/base_agent.py:278), and the graph invokes the agents in
`AGENT_PIPELINE` order. -/
def pipelineMarks (s : AgentState) (k : Nat) : AgentState :=
  (AGENT_PIPELINE.take k).foldl mark_agent_executed s

/-! ### ProgressTracker views (src/basic_agent_version/src/utils/progress_tracker.py) -/

/-- `ProgressTracker.get_current_agent`: the agent of the most recent
`agent_start` without a later `agent_complete`; among the still-open starts
the one with the greatest timestamp wins, first-seen on ties (Python `max`
over dict values). -/
def get_current_agent (events : List PEvent) : Option String :=
  let started := events.foldl
    (fun (m : List (Option String × PEvent)) e =>
      if e.event_type = "agent_start" then dictUpd m e.agent e
      else if e.event_type = "agent_complete" then
        if hasKey m e.agent then m.filter (fun p => decide (p.1 ≠ e.agent)) else m
      else m) []
  match started with
  | [] => none
  | x :: xs =>
      (xs.foldl (fun best q => if best.2.timestamp < q.2.timestamp then q else best) x).2.agent

/-- `ProgressTracker.get_current_tasks` (without the optional agent filter):
per-agent list of task names started but not yet completed. -/
def get_current_tasks (events : List PEvent) : List (Option String × List String) :=
  events.foldl
    (fun (m : List (Option String × List String)) e =>
      if e.event_type = "task_start" then
        let cur := match dictGet m e.agent with
          | some l => l
          | none => []
        let m1 := if hasKey m e.agent then m else m ++ [(e.agent, [])]
        match e.task_name with
        | some t =>
            if t = "" then m1
            else if t ∈ cur then m1
            else dictUpd m1 e.agent (cur ++ [t])
        | none => m1
      else if e.event_type = "task_complete" then
        match dictGet m e.agent with
        | some cur =>
            match e.task_name with
            | some t => if t ∈ cur then dictUpd m e.agent (cur.erase t) else m
            | none => m
        | none => m
      else m) []

/-- `StateManager.add_progress_event`: append the event and re-derive the
current agent and tasks from the event log. -/
def add_progress_event (s : AgentState) (e : PEvent) : AgentState :=
  let pe := s.progress_events ++ [e]
  { s with progress_events := pe,
           current_agent := get_current_agent pe,
           current_tasks := get_current_tasks pe }

/-! ### Merging parallel contexts (`StateManager.merge_parallel_contexts`) -/

/-- One iteration of the merge loop: dict-update the map fields (right side
wins), concatenate citations, and append the not-yet-seen executed agents. -/
def mergeStep (merged ctx : AgentState) : AgentState :=
  { merged with
    research_data := dictUpdate merged.research_data ctx.research_data,
    research_metadata := dictUpdate merged.research_metadata ctx.research_metadata,
    analysis_results := dictUpdate merged.analysis_results ctx.analysis_results,
    analysis_reasoning := dictUpdate merged.analysis_reasoning ctx.analysis_reasoning,
    citations := merged.citations ++ ctx.citations,
    token_usage := dictUpdate merged.token_usage ctx.token_usage,
    execution_time := dictUpdate merged.execution_time ctx.execution_time,
    agents_executed := merged.agents_executed ++
      ctx.agents_executed.filter (fun a => decide (a ∉ merged.agents_executed)) }

/-- The merge body for a non-empty context list `c0 :: rest`: fold the map
merge over `rest`, concatenate the event lists, re-derive the current agent
and tasks, bump the version once, and recompute the size. -/
def mergeList (c0 : AgentState) (rest : List AgentState) : AgentState :=
  let m1 := rest.foldl mergeStep c0
  let m2 := { m1 with
    transaction_id := c0.transaction_id,
    progress_events := rest.foldl (fun acc (c : AgentState) => acc ++ c.progress_events)
      m1.progress_events,
    execution_order := rest.foldl (fun acc (c : AgentState) => acc ++ c.execution_order)
      m1.execution_order }
  let m3 := { m2 with
    current_agent := get_current_agent m2.progress_events,
    current_tasks := get_current_tasks m2.progress_events,
    context_version := m2.context_version + 1 }
  { m3 with context_size := calculate_context_size m3 }

/-- `StateManager.merge_parallel_contexts`: raises `ValueError` on an empty
list, otherwise merges into a copy of the first context. -/
def merge_parallel_contexts : List AgentState → Except String AgentState
  | [] => Except.error "Cannot merge empty context list"
  | c :: cs => Except.ok (mergeList c cs)

/-! ### Pruning (`StateManager.prune_context`, the later three-stage
definition at src/src/orchestrator/state.py:584) -/

/-- A metadata entry is dropped when it carries a timestamp older than 24
hours (86400 s); entries without a parseable timestamp are kept. -/
def isOldMeta (m : MetaVal) : Bool :=
  match m.age with
  | some a => decide (a > 86400)
  | none => false

/-- Reasoning strings longer than 1000 chars are cut to 500 chars plus an
ellipsis. -/
def truncateReasoning (r : String) : String :=
  if r.length > 1000 then r.take 500 ++ "..." else r

/-- `StateManager.prune_context`: return unchanged within budget; else drop
old metadata, and if still over budget truncate long reasoning strings and
keep only the last 50 progress events; finally store the recomputed size. -/
def prune_context (s : AgentState) (max_size_bytes : Nat) : AgentState :=
  if calculate_context_size s ≤ max_size_bytes then s
  else
    let s1 := { s with
      research_metadata := s.research_metadata.filter (fun p => !(isOldMeta p.2)) }
    let s2 :=
      if max_size_bytes < calculate_context_size s1 then
        { s1 with
          analysis_reasoning := s1.analysis_reasoning.map
            (fun p => (p.1, truncateReasoning p.2)),
          progress_events :=
            if 50 < s1.progress_events.length then
              s1.progress_events.drop (s1.progress_events.length - 50)
            else s1.progress_events }
      else s1
    { s2 with context_size := calculate_context_size s2 }

/-! ## Claim C2: context_version monotonicity -/

/-- A small reachable state used by concrete counterexamples: the initial
state of a one-symbol query. -/
def cState : AgentState := create_initial_state "Analyze AAPL stock" "single_stock" ["AAPL"] "tid0"

/-! ## Claim C1: merge commutativity -/

/-- The two maps agree wherever both are defined. -/
def dictAgree {α : Type} (m₁ m₂ : List (String × α)) : Prop :=
  ∀ k v₁ v₂, dictGet m₁ k = some v₁ → dictGet m₂ k = some v₂ → v₁ = v₂

/-- Keys of the six map-valued merge fields are duplicate-free (true of
every state built from Python dicts). -/
def wellKeyed (s : AgentState) : Prop :=
  (dictKeys s.research_data).Nodup ∧ (dictKeys s.research_metadata).Nodup ∧
  (dictKeys s.analysis_results).Nodup ∧ (dictKeys s.analysis_reasoning).Nodup ∧
  (dictKeys s.token_usage).Nodup ∧ (dictKeys s.execution_time).Nodup

/-- The two contexts agree on the shared keys of each map-valued field
(vacuously true when the key sets are disjoint). -/
def mergeAgree (A B : AgentState) : Prop :=
  dictAgree A.research_data B.research_data ∧
  dictAgree A.research_metadata B.research_metadata ∧
  dictAgree A.analysis_results B.analysis_results ∧
  dictAgree A.analysis_reasoning B.analysis_reasoning ∧
  dictAgree A.token_usage B.token_usage ∧
  dictAgree A.execution_time B.execution_time

/-- Reachable context that recorded 100 tokens for the Research Agent. -/
def cStateA : AgentState := track_token_usage cState "Research Agent" 100

/-- Reachable context that recorded 200 tokens for the Research Agent. -/
def cStateB : AgentState := track_token_usage cState "Research Agent" 200

/-! ## Claim C3: agents and partial success

The Research and Analyst agents (src/src/agents/research_agent.py,
src/src/agents/analyst_agent.py) fan work out per symbol; the outcome of
each symbol's future is an external input, embedded as a function from
symbol to `ROutcome` (research) or `TaskOutcome` (analysis).  A research
future writes `research_data[symbol]` into the shared dict
(research_agent.py:171) before the citation-forwarding loop (lines
186-196), so it can raise with the data entry already in place: in fact
`BaseAgent.add_citation` (base_agent.py:103-111) forwards the tracker's
citation dict with `**citation`, and that dict carries a `symbol` key
(citations.py:31-38) that `StateManager.add_citation` (state.py:195-196)
does not accept — a `TypeError` on every forwarded citation.  The
multi-symbol loop catches per-symbol failures and records
`symbol_status`/`symbol_errors` (research_agent.py:80-89) without removing
already-written data, while in the single-symbol path an exception
propagates (result `none`).  `write_context`
(src/basic_agent_version/src/utils/context_manager.py) replaces the field
and refreshes the context size. -/

/-- Outcome of one per-symbol future of the analyst fan-out. -/
inductive TaskOutcome
  | ok (payload : String)
  | fail (err : String)
deriving DecidableEq, Repr

/-- The status string the agents record for an outcome. -/
def statusOf : TaskOutcome → String
  | .ok _ => "success"
  | .fail _ => "failed"

/-- Outcome of one per-symbol future of the research fan-out: `ok` — the
future returned; `failAfter` — it raised after `research_data[symbol]` was
written at research_agent.py:171 (e.g. the citation-forwarding `TypeError`),
leaving `data` in the shared dict; `fail` — it raised before that write. -/
inductive ROutcome
  | ok (data : String)
  | failAfter (data : String) (err : String)
  | fail (err : String)
deriving DecidableEq, Repr

/-- The status string the research loop records for an outcome
(research_agent.py:78/82). -/
def rStatusOf : ROutcome → String
  | .ok _ => "success"
  | .failAfter _ _ => "failed"
  | .fail _ => "failed"

/-- `any(status == "failed" for status in symbol_status.values())`. -/
def anyFailed (m : List (String × String)) : Bool :=
  m.any (fun p => decide (p.2 = "failed"))

/-- Per-symbol statuses recorded by a fan-out over `syms`. -/
def statusList (syms : List String) (f : String → TaskOutcome) :
    List (String × String) :=
  syms.map (fun sym => (sym, statusOf (f sym)))

/-- Per-symbol data written by the successful futures. -/
def okList (syms : List String) (f : String → TaskOutcome) :
    List (String × String) :=
  syms.filterMap (fun sym =>
    match f sym with
    | .ok d => some (sym, d)
    | .fail _ => none)

/-- Per-symbol error messages recorded for the failed futures. -/
def errList (syms : List String) (f : String → TaskOutcome) :
    List (String × String) :=
  syms.filterMap (fun sym =>
    match f sym with
    | .ok _ => none
    | .fail e => some (sym, e))

/-- Per-symbol statuses recorded by the research fan-out. -/
def rStatusList (syms : List String) (f : String → ROutcome) :
    List (String × String) :=
  syms.map (fun sym => (sym, rStatusOf (f sym)))

/-- `research_data` entries present in the shared dict at write-back: the
line-171 write runs both for a future that returned and for one that raised
after it. -/
def rDataList (syms : List String) (f : String → ROutcome) :
    List (String × String) :=
  syms.filterMap (fun sym =>
    match f sym with
    | .ok d => some (sym, d)
    | .failAfter d _ => some (sym, d)
    | .fail _ => none)

/-- The futures that returned: only their result states reach the merge. -/
def rOkList (syms : List String) (f : String → ROutcome) :
    List (String × String) :=
  syms.filterMap (fun sym =>
    match f sym with
    | .ok d => some (sym, d)
    | .failAfter _ _ => none
    | .fail _ => none)

/-- Per-symbol error messages recorded for the failed research futures. -/
def rErrList (syms : List String) (f : String → ROutcome) :
    List (String × String) :=
  syms.filterMap (fun sym =>
    match f sym with
    | .ok _ => none
    | .failAfter _ e => some (sym, e)
    | .fail e => some (sym, e))

/-- Per-symbol research metadata: fetch metadata on success; on failure the
except handler (research_agent.py:84-87) overwrites the entry with the
error record. -/
def rMetaList (syms : List String) (f : String → ROutcome) :
    List (String × MetaVal) :=
  syms.map (fun sym =>
    (sym, match f sym with
      | .ok _ => (⟨none, "fetched"⟩ : MetaVal)
      | .failAfter _ e => (⟨none, e⟩ : MetaVal)
      | .fail e => (⟨none, e⟩ : MetaVal)))

/-- The final write-back of the research fan-out (multi-symbol path):
write the collected dicts through `write_context` and set
`partial_success` when any recorded status is `failed`; the version bump
comes from `merge_parallel_contexts` when at least one future returned. -/
def researchWriteBack (s : AgentState) (syms : List String)
    (f : String → ROutcome) : AgentState :=
  let sts := dictUpdate s.symbol_status (rStatusList syms f)
  let sv := if (rOkList syms f).isEmpty then s
    else { s with context_version := s.context_version + 1 }
  let s1 := update_context_size
    { sv with research_data := dictUpdate s.research_data (rDataList syms f) }
  let s2 := update_context_size
    { s1 with research_metadata := dictUpdate s.research_metadata (rMetaList syms f) }
  let s3 := update_context_size { s2 with symbol_status := sts }
  let s4 := update_context_size
    { s3 with symbol_errors := dictUpdate s.symbol_errors (rErrList syms f) }
  if anyFailed sts then update_context_size { s4 with partial_success := true }
  else s4

/-- The write-back after a successful single-symbol fetch. -/
def researchSingleWriteBack (s : AgentState) (sym : String) (data : String) :
    AgentState :=
  let s1 := update_context_size
    { s with research_data := dictUpd s.research_data sym data }
  let s2 := update_context_size
    { s1 with research_metadata := dictUpd s1.research_metadata sym ⟨none, "fetched"⟩ }
  let s3 := update_context_size { s2 with symbol_status := s.symbol_status }
  let s4 := update_context_size { s3 with symbol_errors := s.symbol_errors }
  if anyFailed s.symbol_status then
    update_context_size { s4 with partial_success := true }
  else s4

/-- `ResearchAgent.execute` dispatch on the symbol list: single-symbol path
runs the fetch directly (an exception propagates — before or after the data
write — so the run yields `none`); otherwise the per-symbol futures are
caught and written back. -/
def researchRunAux (s : AgentState) (f : String → ROutcome) :
    List String → Option AgentState
  | [sym] =>
    match f sym with
    | .ok data => some (researchSingleWriteBack s sym data)
    | .failAfter _ _ => none
    | .fail _ => none
  | syms => some (researchWriteBack s syms f)

/-- `ResearchAgent.execute`. -/
def researchRun (s : AgentState) (f : String → ROutcome) : Option AgentState :=
  researchRunAux s f s.symbols

/-- Analysis results written per symbol: the result on success, the
`{"error": e}` record on failure. -/
def analysisList (valid : List String) (g : String → TaskOutcome) :
    List (String × String) :=
  valid.map (fun sym =>
    (sym, match g sym with
      | .ok r => r
      | .fail e => e))

/-- Reasoning chains written for the successfully analyzed symbols. -/
def reasoningList (valid : List String) (g : String → TaskOutcome) :
    List (String × String) :=
  valid.filterMap (fun sym =>
    match g sym with
    | .ok r => some (sym, r)
    | .fail _ => none)

/-- The final write-back of the analyst fan-out (multiple valid symbols). -/
def analystWriteBack (s : AgentState) (valid : List String)
    (g : String → TaskOutcome) : AgentState :=
  let sts := dictUpdate s.symbol_status (statusList valid g)
  let sv := if (okList valid g).isEmpty then s
    else { s with context_version := s.context_version + 1 }
  let s1 := update_context_size
    { sv with analysis_results := dictUpdate s.analysis_results (analysisList valid g) }
  let s2 := update_context_size
    { s1 with analysis_reasoning := dictUpdate s.analysis_reasoning (reasoningList valid g) }
  let s3 := update_context_size { s2 with symbol_status := sts }
  let s4 := update_context_size
    { s3 with symbol_errors := dictUpdate s.symbol_errors (errList valid g) }
  if anyFailed sts then update_context_size { s4 with partial_success := true }
  else s4

/-- The write-back after a successful single-symbol analysis. -/
def analystSingleWriteBack (s : AgentState) (sym : String) (res : String) :
    AgentState :=
  let s1 := update_context_size
    { s with analysis_results := dictUpd s.analysis_results sym res }
  let s2 := update_context_size
    { s1 with analysis_reasoning := dictUpd s1.analysis_reasoning sym res }
  let s3 := update_context_size { s2 with symbol_status := s.symbol_status }
  let s4 := update_context_size { s3 with symbol_errors := s.symbol_errors }
  if anyFailed s.symbol_status then
    update_context_size { s4 with partial_success := true }
  else s4

/-- `AnalystAgent.execute` dispatch on the valid (has-research-data)
symbols: none → unchanged; one → direct analysis with exceptions
propagating; several → per-symbol failures caught and written back. -/
def analystRunAux (s : AgentState) (g : String → TaskOutcome) :
    List String → Option AgentState
  | [] => some s
  | [sym] =>
    match g sym with
    | .fail _ => none
    | .ok res => some (analystSingleWriteBack s sym res)
  | valid => some (analystWriteBack s valid g)

/-- `AnalystAgent.execute`: returns the state unchanged without (truthy)
`research_data`, else dispatches on the valid symbols. -/
def analystRun (s : AgentState) (g : String → TaskOutcome) : Option AgentState :=
  if s.research_data.isEmpty then some s
  else analystRunAux s g (s.symbols.filter (fun sym => hasKey s.research_data sym))

/-- The analyst's valid symbols: those with research data. -/
def validSyms (s : AgentState) : List String :=
  s.symbols.filter (fun sym => hasKey s.research_data sym)

/-- Python regex `\w` (ASCII part). -/
def isWordChar (c : Char) : Bool := c.isAlphanum || c = '_'

/-- `Guardrails.INVALID_SYMBOLS`: common words that look like symbols. -/
def INVALID_SYMBOLS : List String :=
  ["THE", "AND", "OR", "FOR", "WITH", "FROM", "THIS", "THAT", "WHAT",
   "WHEN", "WHERE", "WHY", "HOW", "WHO", "WHICH", "WILL", "WOULD",
   "SHOULD", "COULD", "MIGHT", "MAY", "CAN", "MUST", "SHALL",
   "ABOUT", "ABOVE", "ACROSS", "AFTER", "AGAIN", "AGAINST", "ALONG",
   "AMONG", "AROUND", "BEFORE", "BEHIND", "BELOW", "BENEATH", "BESIDE",
   "BETWEEN", "BEYOND", "DURING", "EXCEPT", "INSIDE", "OUTSIDE",
   "THROUGH", "THROUGHOUT", "TOWARD", "UNDER", "UNDERNEATH", "UNTIL",
   "UPON", "WITHIN", "WITHOUT", "YOUR", "YOURS", "YOU", "YOURSELF"]

/-- Full match of `^[A-Z]{1,5}(\.[A-Z]{1,2})?$`. -/
def symPattern (cs : List Char) : Bool :=
  let ups := cs.takeWhile Char.isUpper
  let rest := cs.drop ups.length
  decide (1 ≤ ups.length) && decide (ups.length ≤ 5) &&
  (match rest with
   | [] => true
   | '.' :: suf =>
       suf.all Char.isUpper && decide (1 ≤ suf.length) && decide (suf.length ≤ 2)
   | _ => false)

/-- `Guardrails.validate_symbol`: non-empty, strip + upper, length 1-7,
pattern match, base token not a stop word. -/
def validate_symbol (symbol : String) : Bool :=
  if symbol = "" then false
  else
    let sym := String.mk
      (((symbol.data.dropWhile Char.isWhitespace).reverse.dropWhile
        Char.isWhitespace).reverse.map Char.toUpper)
    if sym.length < 1 || 7 < sym.length then false
    else if !(symPattern sym.data) then false
    else
      let base := String.mk (sym.data.takeWhile (fun c => decide (c ≠ '.')))
      if base ∈ INVALID_SYMBOLS then false
      else true

/-- Boundary state before the current position: start of string or a
non-word previous character. -/
def boundaryBefore : Option Char → Bool
  | none => true
  | some c => !(isWordChar c)

/-- `\b` at the position in front of `rest` after a word character. -/
def endBoundary : List Char → Bool
  | [] => true
  | c :: _ => !(isWordChar c)

/-- Take exactly `k` uppercase letters off the front. -/
def takeUppers : Nat → List Char → Option (List Char × List Char)
  | 0, cs => some ([], cs)
  | _ + 1, [] => none
  | k + 1, c :: t =>
      if c.isUpper then (takeUppers k t).map (fun pr => (c :: pr.1, pr.2)) else none

/-- The optional exchange-suffix alternatives after the captured base
`pre`, greedy (2 letters, then 1, then absent), each followed by the
closing `\b`.  Returns the last consumed character and the remainder. -/
def trySuffixEnd (pre rest : List Char) : Option (Char × List Char) :=
  match rest with
  | '.' :: a :: b :: r2 =>
      if a.isUpper && b.isUpper && endBoundary r2 then some (b, r2)
      else if a.isUpper && endBoundary (b :: r2) then some (a, b :: r2)
      else if endBoundary rest then some (pre.getLastD 'A', rest)
      else none
  | '.' :: a :: r1 =>
      if a.isUpper && endBoundary r1 then some (a, r1)
      else if endBoundary rest then some (pre.getLastD 'A', rest)
      else none
  | _ =>
      if endBoundary rest then some (pre.getLastD 'A', rest)
      else none

/-- Try a match at the current position with capture lengths `k, k-1, …, 1`
(the greedy `{1,5}` quantifier with backtracking). -/
def tryMatchAt (cs : List Char) : Nat → Option (List Char × Char × List Char)
  | 0 => none
  | k + 1 =>
      match takeUppers (k + 1) cs with
      | some (pre, rest) =>
          match trySuffixEnd pre rest with
          | some (last, rem) => some (pre, last, rem)
          | none => tryMatchAt cs k
      | none => tryMatchAt cs k

/-- The left-to-right non-overlapping scan of `re.findall`; `prev` is the
character before the current position (`none` at the start). -/
def scanner : Nat → Option Char → List Char → List (List Char)
  | 0, _, _ => []
  | _ + 1, _, [] => []
  | fuel + 1, prev, c :: rest =>
      if boundaryBefore prev && c.isUpper then
        match tryMatchAt (c :: rest) 5 with
        | some (cap, last, rem) => cap :: scanner fuel (some last) rem
        | none => scanner fuel (some c) rest
      else scanner fuel (some c) rest

/-- `re.findall` of the symbol pattern over the query (group 1 captures). -/
def findallSymbols (text : List Char) : List (List Char) :=
  scanner (text.length + 1) none text

/-- Dedup preserving first-occurrence order (the `seen` set loop). -/
def dedupFirstAux (seen : List String) : List String → List String
  | [] => []
  | x :: t =>
      if x ∈ seen then dedupFirstAux seen t
      else x :: dedupFirstAux (x :: seen) t

/-- Dedup preserving first-occurrence order. -/
def dedupFirst (l : List String) : List String := dedupFirstAux [] l

/-- `Guardrails.MAX_SYMBOLS_PER_QUERY`. -/
def MAX_SYMBOLS_PER_QUERY : Nat := 20

/-- `Guardrails.extract_symbols`: scan, validate each match, dedup
preserving order, cap at 20. -/
def extract_symbols (query : String) : List String :=
  if query = "" then []
  else
    let found := (findallSymbols query.data).map (fun cs => String.mk cs)
    let valid := found.filter (fun m => validate_symbol m)
    (dedupFirst valid).take MAX_SYMBOLS_PER_QUERY

/-! ## Claim C4: the unified dispatcher short-circuits
(src/basic_agent_version/src/mcp/mcp_client.py with
src/basic_agent_version/src/utils/integration_config.py)

The outcome of each underlying client call is an external input, embedded
as `behavior : String → TryResult` (one deterministic outcome per source:
the dispatcher calls each source at most once per request).  Each
instrumented function returns, next to its result, the list of sources an
underlying request was actually issued to. -/

/-- Result of one underlying `client.get_stock_price` call: a (truthy)
payload, a falsy/empty payload, or a raised exception. -/
inductive TryResult
  | ok (payload : String)
  | empty
  | exc (msg : String)
deriving DecidableEq, Repr

/-- The sources a request was NOT issued by a successful `_try_source`. -/
def isFailTry : TryResult → Bool
  | .ok _ => false
  | .empty => true
  | .exc _ => true

/-- `IntegrationConfig.DATA_SOURCE_MAPPING["stock_price"]["preferred"]`. -/
def STOCK_PRICE_PREFERRED : List String := ["yahoo_finance", "alpha_vantage", "fmp"]

/-- The keys of `UnifiedMCPClient._client_map`. -/
def CLIENT_NAMES : List String := ["yahoo_finance", "alpha_vantage", "fmp"]

/-- `IntegrationConfig.get_enabled_sources_for_data_type("stock_price")`:
the preferred order filtered by `is_enabled` (env override then config). -/
def get_enabled_sources_stock_price (enabled : String → Bool) : List String :=
  STOCK_PRICE_PREFERRED.filter enabled

/-- The `source_mapping.get(p, p)` normalization of a preferred source. -/
def normalizePreferred (p : String) : String :=
  if p = "yahoo" then "yahoo_finance" else p

/-- `UnifiedMCPClient._try_source`: skipped integrations and unknown
sources yield `None` without an underlying request; otherwise exactly one
request is issued, returning the payload only when truthy.  The second
component logs the request. -/
def try_source (enabled : String → Bool) (behavior : String → TryResult)
    (source_name : String) : Option String × List String :=
  if !(enabled source_name) then (none, [])
  else if source_name ∉ CLIENT_NAMES then (none, [])
  else
    match behavior source_name with
    | .ok p => (some p, [source_name])
    | .empty => (none, [source_name])
    | .exc _ => (none, [source_name])

/-- The fallback loop of `get_stock_price`: try each enabled source in
order, skipping the already-tried preferred source, returning on the first
truthy result. -/
def stockPriceLoop (enabled : String → Bool) (behavior : String → TryResult)
    (skip : Option String) : List String → Except String String × List String
  | [] => (Except.error "All enabled sources failed to fetch price", [])
  | src :: rest =>
    if skip = some src then stockPriceLoop enabled behavior skip rest
    else
      match try_source enabled behavior src with
      | (some res, log) => (Except.ok res, log)
      | (none, log) =>
          let tail := stockPriceLoop enabled behavior skip rest
          (tail.1, log ++ tail.2)

/-- `UnifiedMCPClient.get_stock_price`: validate the symbol, resolve the
enabled sources, try the normalized preferred source first, then the
chain; raise when every source failed. -/
def get_stock_price (symbol : String) (enabled : String → Bool)
    (behavior : String → TryResult) (preferred_source : Option String) :
    Except String String × List String :=
  if !(validate_symbol symbol) then
    (Except.error "Invalid symbol", [])
  else
    let enabled_sources := get_enabled_sources_stock_price enabled
    if enabled_sources.isEmpty then
      (Except.error "No enabled integrations available for stock price data", [])
    else
      let prefTry : Option String × List String :=
        match preferred_source with
        | some p =>
            let pn := normalizePreferred p
            if pn ∈ enabled_sources then try_source enabled behavior pn
            else (none, [])
        | none => (none, [])
      match prefTry with
      | (some res, log) => (Except.ok res, log)
      | (none, log0) =>
          let tail := stockPriceLoop enabled behavior
            (preferred_source.map normalizePreferred) enabled_sources
          (tail.1, log0 ++ tail.2)

/-- Concrete source behavior: Yahoo raises, Alpha Vantage returns data. -/
def c4behavior : String → TryResult :=
  fun s => if s = "yahoo_finance" then TryResult.exc "connection error"
    else if s = "alpha_vantage" then TryResult.ok "price42"
    else TryResult.ok "unused"

/-! ## Claim C5: the HTTP retry loop (src/src/mcp/mcp_base.py)

`MCPBaseClient._make_request` loops `for attempt in range(max_retries)`.
The outcome of each HTTP attempt is an external input, embedded as
`attempts : Nat → AttemptOutcome`.  The embedding returns the result, the
number of attempts actually made, and the list of backoff sleeps taken. -/

/-- Outcome of one HTTP attempt: a parsed response, an `HTTPError` with a
status code, a timeout, a connection error, or any other exception (e.g. a
JSON decode failure). -/
inductive AttemptOutcome
  | success (payload : String)
  | http (status : Nat)
  | timedOut
  | connError (msg : String)
  | otherExc (msg : String)
deriving DecidableEq, Repr

/-- The exponential backoff `2 ** attempt` seconds. -/
def backoff (attempt : Nat) : Nat := 2 ^ attempt

/-- Prefix the trace of the continuation with this attempt when a retry is
taken (`attempt < max_retries - 1`); otherwise stop: retryable HTTP-style
failures fall through the loop to the final error, a generic exception is
re-raised (`failMsg`). -/
def retryOr (cont : Except String String × Nat × List Nat) (doRetry : Bool)
    (attempt : Nat) (failMsg : String) : Except String String × Nat × List Nat :=
  if doRetry then (cont.1, cont.2.1 + 1, backoff attempt :: cont.2.2)
  else (Except.error failMsg, 1, [])

/-- The loop body of `_make_request` from a given attempt index with the
remaining loop iterations as fuel. -/
def runFrom (attempts : Nat → AttemptOutcome) (maxRetries : Nat) :
    Nat → Nat → Except String String × Nat × List Nat
  | _, 0 => (Except.error "Request failed after all attempts", 0, [])
  | attempt, fuel + 1 =>
    match attempts attempt with
    | .success p => (Except.ok p, 1, [])
    | .http st =>
      if st = 429 then
        retryOr (runFrom attempts maxRetries (attempt + 1) fuel)
          (decide (attempt < maxRetries - 1)) attempt
          "Request failed after all attempts"
      else if st = 401 then (Except.error "Authentication failed", 1, [])
      else if st = 403 then (Except.error "Access forbidden", 1, [])
      else if st = 404 then (Except.error "Resource not found", 1, [])
      else if 500 ≤ st then
        retryOr (runFrom attempts maxRetries (attempt + 1) fuel)
          (decide (attempt < maxRetries - 1)) attempt
          "Request failed after all attempts"
      else (Except.error "HTTP error", 1, [])
    | .timedOut =>
        retryOr (runFrom attempts maxRetries (attempt + 1) fuel)
          (decide (attempt < maxRetries - 1)) attempt
          "Request failed after all attempts"
    | .connError _ =>
        retryOr (runFrom attempts maxRetries (attempt + 1) fuel)
          (decide (attempt < maxRetries - 1)) attempt
          "Request failed after all attempts"
    | .otherExc m =>
        retryOr (runFrom attempts maxRetries (attempt + 1) fuel)
          (decide (attempt < maxRetries - 1)) attempt m

/-- `MCPBaseClient._make_request` with its default `max_retries = 3`:
result, attempts used, backoff sleeps taken. -/
def make_request (attempts : Nat → AttemptOutcome) (maxRetries : Nat) :
    Except String String × Nat × List Nat :=
  runFrom attempts maxRetries 0 maxRetries

/-- The retry set the claim asserts: 429, 5xx, connection errors and
timeouts only. -/
def retrySpecB : AttemptOutcome → Bool
  | .success _ => false
  | .http st => decide (st = 429) || decide (500 ≤ st)
  | .timedOut => true
  | .connError _ => true
  | .otherExc _ => false

/-- The retry set the code implements: the claim's set plus every other
non-HTTP exception. -/
def retryCodeB : AttemptOutcome → Bool
  | .success _ => false
  | .http st => decide (st = 429) || decide (500 ≤ st)
  | .timedOut => true
  | .connError _ => true
  | .otherExc _ => true

/-- First attempt raises a JSON decode error, second succeeds. -/
def c5attempts : Nat → AttemptOutcome :=
  fun n => if n = 0 then AttemptOutcome.otherExc "json decode error"
    else AttemptOutcome.success "payload"

/-- The retry-policy contract of a run of the request loop starting at
`attempt` with `fuel` remaining iterations: bounded attempts, the backoff
schedule, retries only on retryable outcomes, and an immediate stop on the
no-retry 4xx statuses. -/
def reqSpec (attempts : Nat → AttemptOutcome) (attempt fuel : Nat)
    (t : Except String String × Nat × List Nat) : Prop :=
  t.2.1 ≤ fuel ∧
  (1 ≤ fuel → 1 ≤ t.2.1) ∧
  t.2.2 = (List.range (t.2.1 - 1)).map (fun i => backoff (attempt + i)) ∧
  (∀ k, k + 1 < t.2.1 → retryCodeB (attempts (attempt + k)) = true) ∧
  (∀ k st, k < t.2.1 → attempts (attempt + k) = AttemptOutcome.http st →
    (st = 400 ∨ st = 401 ∨ st = 403 ∨ st = 404) → t.2.1 = k + 1)

/-- A 500 then a 429 then success: two retries taken. -/
def c5attempts2 : Nat → AttemptOutcome :=
  fun n => if n = 0 then AttemptOutcome.http 500
    else if n = 1 then AttemptOutcome.http 429
    else AttemptOutcome.success "done"

/-! ## Theorems -/

theorem dictGet_cons {κ α : Type} [DecidableEq κ] (p : κ × α) (t : List (κ × α)) (k : κ) :
    dictGet (p :: t) k = if p.1 = k then some p.2 else dictGet t k := rfl

theorem replaceKey_cons {κ α : Type} [DecidableEq κ] (p : κ × α) (t : List (κ × α))
    (k : κ) (v : α) :
    replaceKey (p :: t) k v = (if p.1 = k then (p.1, v) else p) :: replaceKey t k v := rfl

theorem dictKeys_cons {κ α : Type} (p : κ × α) (t : List (κ × α)) :
    dictKeys (p :: t) = p.1 :: dictKeys t := rfl

theorem dictGet_eq_none {κ α : Type} [DecidableEq κ]
    (m : List (κ × α)) (k : κ) (h : k ∉ dictKeys m) : dictGet m k = none := by
  induction m with
  | nil => rfl
  | cons p t ih =>
    simp only [dictKeys, List.map_cons, List.mem_cons, not_or] at h
    have hp : p.1 ≠ k := fun hh => h.1 hh.symm
    simp only [dictGet, hp, if_false]
    exact ih (by simpa [dictKeys] using h.2)

theorem dictGet_append {κ α : Type} [DecidableEq κ]
    (l₁ l₂ : List (κ × α)) (k : κ) :
    dictGet (l₁ ++ l₂) k = match dictGet l₁ k with
      | some v => some v
      | none => dictGet l₂ k := by
  induction l₁ with
  | nil => rfl
  | cons p t ih =>
    by_cases hp : p.1 = k
    · simp [dictGet, hp]
    · simpa [dictGet, hp] using ih

theorem dictGet_replaceKey_ne {κ α : Type} [DecidableEq κ]
    (m : List (κ × α)) (k : κ) (v : α) (k' : κ) (h : k' ≠ k) :
    dictGet (replaceKey m k v) k' = dictGet m k' := by
  induction m with
  | nil => rfl
  | cons p t ih =>
    rw [replaceKey_cons, dictGet_cons, dictGet_cons]
    have hfst : (if p.1 = k then (p.1, v) else p).1 = p.1 := by
      by_cases hp : p.1 = k <;> simp [hp]
    rw [hfst]
    by_cases hk : p.1 = k'
    · have hp : p.1 ≠ k := fun hh => h (hk.symm.trans hh)
      rw [if_neg hp, if_pos hk, if_pos hk]
    · rw [if_neg hk, if_neg hk]
      exact ih

theorem dictGet_replaceKey_eq {κ α : Type} [DecidableEq κ]
    (m : List (κ × α)) (k : κ) (v : α) (h : hasKey m k = true) :
    dictGet (replaceKey m k v) k = some v := by
  induction m with
  | nil => simp [hasKey] at h
  | cons p t ih =>
    by_cases hp : p.1 = k
    · simp [replaceKey, dictGet, hp]
    · have ht : hasKey t k = true := by
        simp only [hasKey, List.any_cons, Bool.or_eq_true, decide_eq_true_eq] at h
        rcases h with h | h
        · exact absurd h hp
        · simpa [hasKey] using h
      simp only [replaceKey, List.map_cons, if_neg hp, dictGet, if_neg hp]
      simpa [replaceKey] using ih ht

theorem dictGet_none_of_hasKey_false {κ α : Type} [DecidableEq κ]
    (m : List (κ × α)) (k : κ) (h : hasKey m k = false) : dictGet m k = none := by
  apply dictGet_eq_none
  intro hmem
  rcases List.mem_map.mp hmem with ⟨p, hp, hpk⟩
  have : hasKey m k = true := by
    simp only [hasKey, List.any_eq_true]
    exact ⟨p, hp, by simpa using hpk⟩
  rw [this] at h
  exact Bool.true_eq_false.mp h

/-- `dictUpd` semantics at the level of lookups. -/
theorem dictGet_dictUpd {κ α : Type} [DecidableEq κ]
    (m : List (κ × α)) (k : κ) (v : α) (k' : κ) :
    dictGet (dictUpd m k v) k' = if k' = k then some v else dictGet m k' := by
  unfold dictUpd
  cases hmem : hasKey m k with
  | true =>
    simp only [if_true]
    by_cases hk : k' = k
    · subst hk
      simp [dictGet_replaceKey_eq m k' v hmem]
    · simp [dictGet_replaceKey_ne m k v k' hk, hk]
  | false =>
    simp only [Bool.false_eq_true, if_false]
    rw [dictGet_append]
    by_cases hk : k' = k
    · subst hk
      rw [dictGet_none_of_hasKey_false m k' hmem]
      simp [dictGet]
    · rw [if_neg hk]
      cases hl : dictGet m k' with
      | some v₀ => rfl
      | none =>
        show dictGet [(k, v)] k' = none
        rw [dictGet_cons, if_neg (fun hh => hk hh.symm)]
        rfl

/-- `dictUpdate` at the level of lookups: the last binding in `l` wins,
falling back to `m`. -/
theorem dictGet_dictUpdate {κ α : Type} [DecidableEq κ]
    (m l : List (κ × α)) (k : κ) :
    dictGet (dictUpdate m l) k = match dictGet l.reverse k with
      | some v => some v
      | none => dictGet m k := by
  induction l generalizing m with
  | nil => rfl
  | cons p t ih =>
    show dictGet (dictUpdate (dictUpd m p.1 p.2) t) k = _
    rw [ih]
    have hrev : (p :: t).reverse = t.reverse ++ [p] := by simp
    rw [hrev, dictGet_append]
    cases hl : dictGet t.reverse k with
    | some v => rfl
    | none =>
      rw [dictGet_dictUpd, dictGet_cons]
      by_cases hk : k = p.1
      · rw [if_pos hk, if_pos hk.symm]
      · rw [if_neg hk, if_neg (fun hh => hk hh.symm)]
        rfl

/-- With no duplicate keys, the last binding is also the first one. -/
theorem dictGet_reverse_of_nodup {κ α : Type} [DecidableEq κ]
    (m : List (κ × α)) (h : (dictKeys m).Nodup) (k : κ) :
    dictGet m.reverse k = dictGet m k := by
  induction m with
  | nil => rfl
  | cons p t ih =>
    rw [dictKeys_cons] at h
    have hcons := List.nodup_cons.mp h
    have h1 : p.1 ∉ dictKeys t := hcons.1
    have h2 : (dictKeys t).Nodup := hcons.2
    have hrev : (p :: t).reverse = t.reverse ++ [p] := by simp
    rw [hrev, dictGet_append, ih h2]
    by_cases hk : p.1 = k
    · subst hk
      have hnone : dictGet t p.1 = none := dictGet_eq_none t p.1 h1
      rw [hnone]
      have rhs : dictGet (p :: t) p.1 = some p.2 := by
        rw [dictGet_cons, if_pos rfl]
      rw [rhs]
      show dictGet [p] p.1 = some p.2
      rw [dictGet_cons, if_pos rfl]
    · cases hl : dictGet t k with
      | some v =>
        have rhs : dictGet (p :: t) k = some v := by
          rw [dictGet_cons, if_neg hk]
          exact hl
        rw [rhs]
      | none =>
        have rhs : dictGet (p :: t) k = none := by
          rw [dictGet_cons, if_neg hk]
          exact hl
        rw [rhs]
        show dictGet [p] k = none
        rw [dictGet_cons, if_neg hk]
        rfl

/-- C9 counterexample: on the empty symbol list the code returns the
per-symbol type counts 5 and 4, not the formula values
`min(0 * 5, 20) = 0` and `min(0 * 4, 16) = 0` the claim asserts. -/
theorem C9_empty_budget_counterexample :
    get_max_workers_data_fetching [] = 5 ∧ get_max_workers_analysis [] = 4 ∧
    min (0 * 5) 20 = 0 ∧ min (0 * 4) 16 = 0 := by
  refine ⟨rfl, rfl, ?_, ?_⟩ <;> decide

/-- C9 (amended): for every non-empty symbol list the data-fetching pool is
`min(|S| * 5, 20)` and the analysis pool is `min(|S| * 4, 16)`; for the
empty list the code returns 5 and 4 respectively. -/
theorem C9_worker_budgets (S : List String) (h : S ≠ []) :
    get_max_workers_data_fetching S = min (S.length * 5) 20 ∧
    get_max_workers_analysis S = min (S.length * 4) 16 := by
  have hne : S.isEmpty = false := by
    cases S with
    | nil => exact absurd rfl h
    | cons a t => rfl
  constructor
  · simp [get_max_workers_data_fetching, hne, DATA_TYPES_PER_SYMBOL,
      MAX_WORKERS_DATA_FETCHING]
  · simp [get_max_workers_analysis, hne, ANALYSIS_TYPES_PER_SYMBOL,
      MAX_WORKERS_ANALYSIS]

/-- C9 witness: the amended budget formulas evaluated on a one-symbol list. -/
theorem C9_worker_budgets_witness :
    get_max_workers_data_fetching ["AAPL"] = min (1 * 5) 20 ∧
    get_max_workers_analysis ["AAPL"] = min (1 * 4) 16 :=
  C9_worker_budgets ["AAPL"] (by decide)

/-! ## Claim C10: merging the empty context list -/

/-- C10: `merge_parallel_contexts` raises `ValueError("Cannot merge empty
context list")` on the empty list and never raises on a non-empty list, so
a successful merge implies a non-empty input. -/
theorem C10_merge_empty_raises :
    merge_parallel_contexts [] = Except.error "Cannot merge empty context list" ∧
    (∀ l : List AgentState, l ≠ [] → ∃ m, merge_parallel_contexts l = Except.ok m) := by
  constructor
  · rfl
  · intro l hl
    cases l with
    | nil => exact absurd rfl hl
    | cons c cs => exact ⟨mergeList c cs, rfl⟩

/-- C10 witness: a singleton merge succeeds. -/
theorem C10_merge_empty_raises_witness :
    ∃ m, merge_parallel_contexts [create_initial_state "q" "single_stock" [] "t0"] =
      Except.ok m :=
  C10_merge_empty_raises.2 [create_initial_state "q" "single_stock" [] "t0"]
    (by simp)

/-- C2 counterexample: `add_citation` is a write operation that leaves
`context_version` unchanged (both sides are 1), so `context_version` is not
strictly increasing across all write operations. -/
theorem C2_version_counterexample :
    (add_citation cState "Yahoo Finance" none none none none "2026-01-01").context_version =
      cState.context_version ∧
    cState.context_version = 1 := by
  constructor <;> rfl

/-- Marking a duplicate-free list of agent names not yet executed appends
it to `agents_executed` in order. -/
theorem foldl_mark_agents (l : List String) (s : AgentState)
    (hn : l.Nodup) (hd : ∀ x ∈ l, x ∉ s.agents_executed) :
    (l.foldl mark_agent_executed s).agents_executed = s.agents_executed ++ l := by
  induction l generalizing s with
  | nil => simp
  | cons a t ih =>
    have ha : a ∉ s.agents_executed := hd a (List.mem_cons_self a t)
    have hmark : (mark_agent_executed s a).agents_executed
        = s.agents_executed ++ [a] := by
      unfold mark_agent_executed
      rw [if_neg ha]
    have hd' : ∀ x ∈ t, x ∉ (mark_agent_executed s a).agents_executed := by
      intro x hx hmem
      rw [hmark] at hmem
      rcases List.mem_append.mp hmem with hmem | hmem
      · exact hd x (List.mem_cons_of_mem a hx) hmem
      · exact (List.nodup_cons.mp hn).1 ((List.mem_singleton.mp hmem) ▸ hx)
    rw [List.foldl_cons,
      ih (mark_agent_executed s a) (List.nodup_cons.mp hn).2 hd', hmark,
      List.append_assoc]
    rfl

/-- C2 (amended): `context_version` never decreases across the write
operations and increases exactly on `update_research_data` and
`update_analysis_results`; `add_citation`, `track_token_usage`,
`track_execution_time`, `mark_agent_executed` and `add_progress_event`
leave it unchanged.  `mark_agent_executed` is an idempotent append, so
`agents_executed` stays duplicate-free; and since the graph runs the agents
in the fixed `AGENT_PIPELINE` order, each marking itself once, after any
number `k` of pipeline nodes `agents_executed` is exactly the length-`k`
prefix of the pipeline — a strictly increasing, duplicate-free sequence
over {Research, Analyst, Comparison, Reporting}. -/
theorem C2_version_monotone (s : AgentState) (sym d r src a t : String)
    (md : Option MetaVal) (rs u dt ag dp : Option String) (n : Int)
    (e : PEvent) (q qt tx : String) (syms : List String) (k : Nat) :
    (update_research_data s sym d md).context_version = s.context_version + 1 ∧
    (update_analysis_results s sym r rs).context_version = s.context_version + 1 ∧
    (add_citation s src u dt ag dp t).context_version = s.context_version ∧
    (track_token_usage s a n).context_version = s.context_version ∧
    (track_execution_time s a n).context_version = s.context_version ∧
    (mark_agent_executed s a).context_version = s.context_version ∧
    (add_progress_event s e).context_version = s.context_version ∧
    (s.agents_executed.Nodup → (mark_agent_executed s a).agents_executed.Nodup) ∧
    a ∈ (mark_agent_executed s a).agents_executed ∧
    (pipelineMarks (create_initial_state q qt syms tx) k).agents_executed =
      AGENT_PIPELINE.take k ∧
    (pipelineMarks (create_initial_state q qt syms tx) k).agents_executed.Sublist
      AGENT_PIPELINE ∧
    (pipelineMarks (create_initial_state q qt syms tx) k).agents_executed.Nodup := by
  have hn : (AGENT_PIPELINE.take k).Nodup :=
    (List.take_sublist k AGENT_PIPELINE).nodup (by decide)
  have h0 : (create_initial_state q qt syms tx).agents_executed = [] := rfl
  have hpipe : (pipelineMarks (create_initial_state q qt syms tx) k).agents_executed
      = AGENT_PIPELINE.take k := by
    have hfold := foldl_mark_agents (AGENT_PIPELINE.take k)
      (create_initial_state q qt syms tx) hn
      (by intro x _ hmem; rw [h0] at hmem; exact absurd hmem (List.not_mem_nil x))
    unfold pipelineMarks
    rw [hfold, h0, List.nil_append]
  have hsub : (pipelineMarks (create_initial_state q qt syms tx) k).agents_executed.Sublist
      AGENT_PIPELINE := by
    rw [hpipe]; exact List.take_sublist k AGENT_PIPELINE
  have hnd : (pipelineMarks (create_initial_state q qt syms tx) k).agents_executed.Nodup := by
    rw [hpipe]; exact hn
  refine ⟨?_, ?_, rfl, rfl, rfl, ?_, rfl, ?_, ?_, hpipe, hsub, hnd⟩
  · cases md <;> rfl
  · cases rs with
    | none => rfl
    | some r₀ =>
      by_cases hr : r₀ = "" <;> simp [update_analysis_results, hr]
  · unfold mark_agent_executed
    by_cases hmem : a ∈ s.agents_executed <;> simp [hmem]
  · intro hnd
    unfold mark_agent_executed
    by_cases hmem : a ∈ s.agents_executed
    · simpa [hmem] using hnd
    · simp only [hmem, if_false]
      simpa [List.nodup_append] using ⟨hnd, hmem⟩
  · unfold mark_agent_executed
    by_cases hmem : a ∈ s.agents_executed <;> simp [hmem]

/-- C2 witness: the amended monotonicity facts evaluated on the concrete
initial state, with the full four-node pipeline run. -/
theorem C2_version_monotone_witness :
    (update_research_data cState "AAPL" "data" none).context_version =
      cState.context_version + 1 ∧
    (mark_agent_executed cState "Research Agent").agents_executed.Nodup ∧
    (pipelineMarks cState 4).agents_executed = AGENT_PIPELINE := by
  have h := C2_version_monotone cState "AAPL" "d" "r" "src" "Research Agent" "now"
    none none none none none none 7 ⟨"task_start", none, none, "", ""⟩
    "Analyze AAPL stock" "single_stock" "tid0" ["AAPL"] 4
  exact ⟨(C2_version_monotone cState "AAPL" "data" "r" "src" "Research Agent" "now"
    none none none none none none 7 ⟨"task_start", none, none, "", ""⟩
    "Analyze AAPL stock" "single_stock" "tid0" ["AAPL"] 4).1,
    h.2.2.2.2.2.2.2.1 (by decide),
    h.2.2.2.2.2.2.2.2.2.1⟩

/-! ## Claims C7 and C6: the pruner -/

/-- Anatomy of `prune_context`: whichever branches run, the result is the
input state with at most `research_metadata`, `analysis_reasoning`,
`progress_events` and `context_size` replaced. -/
theorem prune_context_shape (s : AgentState) (maxB : Nat) :
    ∃ md ar pe n, prune_context s maxB =
      { s with research_metadata := md, analysis_reasoning := ar,
               progress_events := pe, context_size := n } := by
  by_cases h1 : calculate_context_size s ≤ maxB
  · refine ⟨s.research_metadata, s.analysis_reasoning, s.progress_events,
      s.context_size, ?_⟩
    unfold prune_context
    rw [if_pos h1]
  · by_cases h2 : maxB < calculate_context_size
      { s with research_metadata := s.research_metadata.filter (fun p => !(isOldMeta p.2)) }
    · refine ⟨s.research_metadata.filter (fun p => !(isOldMeta p.2)),
        s.analysis_reasoning.map (fun p => (p.1, truncateReasoning p.2)),
        (if 50 < s.progress_events.length then
          s.progress_events.drop (s.progress_events.length - 50)
        else s.progress_events),
        calculate_context_size
          { s with research_metadata := s.research_metadata.filter (fun p => !(isOldMeta p.2)),
                   analysis_reasoning := s.analysis_reasoning.map (fun p => (p.1, truncateReasoning p.2)),
                   progress_events :=
                     (if 50 < s.progress_events.length then
                       s.progress_events.drop (s.progress_events.length - 50)
                     else s.progress_events) }, ?_⟩
      simp only [prune_context]
      rw [if_neg h1, if_pos h2]
    · refine ⟨s.research_metadata.filter (fun p => !(isOldMeta p.2)),
        s.analysis_reasoning, s.progress_events,
        calculate_context_size
          { s with research_metadata := s.research_metadata.filter (fun p => !(isOldMeta p.2)) },
        ?_⟩
      simp only [prune_context]
      rw [if_neg h1, if_neg h2]

/-- C7: pruning never changes `final_report`, `research_data`,
`analysis_results` or `citations`; only `research_metadata`,
`analysis_reasoning`, `progress_events` and `context_size` can be
modified. -/
theorem C7_prune_frame (s : AgentState) (maxB : Nat) :
    (prune_context s maxB).final_report = s.final_report ∧
    (prune_context s maxB).research_data = s.research_data ∧
    (prune_context s maxB).analysis_results = s.analysis_results ∧
    (prune_context s maxB).citations = s.citations ∧
    ∃ md ar pe n, prune_context s maxB =
      { s with research_metadata := md, analysis_reasoning := ar,
               progress_events := pe, context_size := n } := by
  obtain ⟨md, ar, pe, n, h⟩ := prune_context_shape s maxB
  rw [h]
  exact ⟨rfl, rfl, rfl, rfl, md, ar, pe, n, rfl⟩

/-- C6 counterexample: pruning is not idempotent in general.  On a state
over budget even after pruning, the stored `context_size` feeds back into
the serialized size (its decimal digits are part of the serialized state),
so the second call stores a different `context_size` than the first. -/
theorem C6_prune_counterexample :
    prune_context (prune_context cState 10) 10 ≠ prune_context cState 10 := by
  decide

/-- C6 (amended): whenever the first prune brings the context within the
budget — in particular whenever pruning succeeds at its goal — a second
prune with no intervening writes is a no-op. -/
theorem C6_prune_idempotent (s : AgentState) (maxB : Nat)
    (h : calculate_context_size (prune_context s maxB) ≤ maxB) :
    prune_context (prune_context s maxB) maxB = prune_context s maxB := by
  generalize prune_context s maxB = r at h ⊢
  unfold prune_context
  rw [if_pos h]

/-- C6 witness: the default 1 MB budget on a small state. -/
theorem C6_prune_idempotent_witness :
    prune_context (prune_context cState 1000000) 1000000 =
      prune_context cState 1000000 :=
  C6_prune_idempotent cState 1000000 (by decide)

/-- `dict.update` commutes (as a map) exactly when the two dicts agree on
their shared keys. -/
theorem mapEquiv_dictUpdate_comm {α : Type} (m₁ m₂ : List (String × α))
    (h₁ : (dictKeys m₁).Nodup) (h₂ : (dictKeys m₂).Nodup)
    (hag : dictAgree m₁ m₂) :
    mapEquiv (dictUpdate m₁ m₂) (dictUpdate m₂ m₁) := by
  intro k
  rw [dictGet_dictUpdate, dictGet_dictUpdate,
    dictGet_reverse_of_nodup m₂ h₂, dictGet_reverse_of_nodup m₁ h₁]
  cases e₁ : dictGet m₁ k with
  | none =>
    cases e₂ : dictGet m₂ k with
    | none => rfl
    | some v => rfl
  | some v₁ =>
    cases e₂ : dictGet m₂ k with
    | none => rfl
    | some v₂ =>
      have := hag k v₁ v₂ e₁ e₂
      simp [this]

/-- C1 counterexample: without any key-disjointness assumption the merge is
not commutative — `dict.update` lets the right-hand context win on a shared
key, so the two merge orders disagree on `token_usage`. -/
theorem C1_merge_counterexample :
    dictGet (mergeList cStateA [cStateB]).token_usage "Research Agent" = some 200 ∧
    dictGet (mergeList cStateB [cStateA]).token_usage "Research Agent" = some 100 := by
  constructor <;> rfl

theorem mem_append_filter_not_mem (l₁ l₂ : List String) (x : String) :
    x ∈ l₁ ++ l₂.filter (fun a => decide (a ∉ l₁)) ↔ x ∈ l₁ ∨ x ∈ l₂ := by
  simp only [List.mem_append, List.mem_filter, decide_eq_true_eq]
  constructor
  · rintro (h | ⟨h, _⟩)
    · exact Or.inl h
    · exact Or.inr h
  · intro h
    by_cases hx : x ∈ l₁
    · exact Or.inl hx
    · rcases h with h | h
      · exact Or.inl h
      · exact Or.inr ⟨h, hx⟩

/-- C1 (amended): `mergeParallelContexts([A, B])` and
`mergeParallelContexts([B, A])` agree on every map-valued field
(`research_data`, `research_metadata`, `analysis_results`,
`analysis_reasoning`, `token_usage`, `execution_time`) provided the two
contexts agree on the shared keys of each such field — in particular under
the key-disjointness of a parallel fan-out; `citations` agree up to order
and `agents_executed` agree as sets. -/
theorem C1_merge_commutative (A B : AgentState)
    (hA : wellKeyed A) (hB : wellKeyed B) (hAB : mergeAgree A B) :
    mapEquiv (mergeList A [B]).research_data (mergeList B [A]).research_data ∧
    mapEquiv (mergeList A [B]).research_metadata (mergeList B [A]).research_metadata ∧
    mapEquiv (mergeList A [B]).analysis_results (mergeList B [A]).analysis_results ∧
    mapEquiv (mergeList A [B]).analysis_reasoning (mergeList B [A]).analysis_reasoning ∧
    mapEquiv (mergeList A [B]).token_usage (mergeList B [A]).token_usage ∧
    mapEquiv (mergeList A [B]).execution_time (mergeList B [A]).execution_time ∧
    (mergeList A [B]).citations.Perm (mergeList B [A]).citations ∧
    (∀ x, x ∈ (mergeList A [B]).agents_executed ↔
      x ∈ (mergeList B [A]).agents_executed) := by
  obtain ⟨hA1, hA2, hA3, hA4, hA5, hA6⟩ := hA
  obtain ⟨hB1, hB2, hB3, hB4, hB5, hB6⟩ := hB
  obtain ⟨g1, g2, g3, g4, g5, g6⟩ := hAB
  refine ⟨mapEquiv_dictUpdate_comm _ _ hA1 hB1 g1,
    mapEquiv_dictUpdate_comm _ _ hA2 hB2 g2,
    mapEquiv_dictUpdate_comm _ _ hA3 hB3 g3,
    mapEquiv_dictUpdate_comm _ _ hA4 hB4 g4,
    mapEquiv_dictUpdate_comm _ _ hA5 hB5 g5,
    mapEquiv_dictUpdate_comm _ _ hA6 hB6 g6,
    ?_, ?_⟩
  · show (A.citations ++ B.citations).Perm (B.citations ++ A.citations)
    exact List.perm_append_comm
  · intro x
    show x ∈ A.agents_executed ++ B.agents_executed.filter _ ↔
      x ∈ B.agents_executed ++ A.agents_executed.filter _
    rw [mem_append_filter_not_mem, mem_append_filter_not_mem, Or.comm]

/-- C1 witness: the amended commutativity at two equal initial contexts
(the agreement hypotheses hold vacuously on empty maps). -/
theorem C1_merge_commutative_witness :
    mapEquiv (mergeList cState [cState]).token_usage
      (mergeList cState [cState]).token_usage ∧
    (mergeList cState [cState]).citations.Perm (mergeList cState [cState]).citations :=
  have h := C1_merge_commutative cState cState
    (by refine ⟨?_, ?_, ?_, ?_, ?_, ?_⟩ <;> exact List.nodup_nil)
    (by refine ⟨?_, ?_, ?_, ?_, ?_, ?_⟩ <;> exact List.nodup_nil)
    (by refine ⟨?_, ?_, ?_, ?_, ?_, ?_⟩ <;> exact fun k v₁ v₂ h₁ _ => Option.noConfusion h₁)
  ⟨h.2.2.2.2.1, h.2.2.2.2.2.2.1⟩

theorem mem_dictUpd_cases {κ α : Type} [DecidableEq κ]
    (m : List (κ × α)) (k : κ) (v : α) (p : κ × α) (h : p ∈ dictUpd m k v) :
    p ∈ m ∨ p = (k, v) := by
  unfold dictUpd at h
  by_cases hm : hasKey m k = true
  · rw [if_pos hm] at h
    rcases List.mem_map.mp h with ⟨q, hq, hfq⟩
    by_cases hqk : q.1 = k
    · right
      rw [← hfq, if_pos hqk, hqk]
    · left
      rw [← hfq, if_neg hqk]
      exact hq
  · rw [if_neg hm] at h
    rcases List.mem_append.mp h with h | h
    · exact Or.inl h
    · right
      simpa using h

theorem mem_dictUpdate_cases {κ α : Type} [DecidableEq κ]
    (m l : List (κ × α)) (p : κ × α) (h : p ∈ dictUpdate m l) :
    p ∈ m ∨ p ∈ l := by
  induction l generalizing m with
  | nil => exact Or.inl h
  | cons q t ih =>
    rcases ih (dictUpd m q.1 q.2) h with h' | h'
    · rcases mem_dictUpd_cases m q.1 q.2 p h' with h'' | h''
      · exact Or.inl h''
      · right
        rw [h'']
        exact List.mem_cons_self _ _
    · exact Or.inr (List.mem_cons_of_mem _ h')

theorem mem_dictUpdate_of_not_key {κ α : Type} [DecidableEq κ]
    (m l : List (κ × α)) (p : κ × α) (hp : p ∈ m) (hk : p.1 ∉ dictKeys l) :
    p ∈ dictUpdate m l := by
  induction l generalizing m with
  | nil => exact hp
  | cons q t ih =>
    rw [dictKeys_cons] at hk
    have h1 : p.1 ≠ q.1 := fun hh => hk (hh ▸ List.mem_cons_self _ _)
    have h2 : p.1 ∉ dictKeys t := fun hh => hk (List.mem_cons_of_mem _ hh)
    have hstep : p ∈ dictUpd m q.1 q.2 := by
      unfold dictUpd
      by_cases hm : hasKey m q.1 = true
      · rw [if_pos hm]
        exact List.mem_map.mpr ⟨p, hp, by rw [if_neg h1]⟩
      · rw [if_neg hm]
        exact List.mem_append_left _ hp
    exact ih (dictUpd m q.1 q.2) hstep h2

theorem anyFailed_iff (m : List (String × String)) :
    anyFailed m = true ↔ ∃ p, p ∈ m ∧ p.2 = "failed" := by
  simp [anyFailed]

theorem hasKey_iff {κ α : Type} [DecidableEq κ] (m : List (κ × α)) (k : κ) :
    hasKey m k = true ↔ ∃ p, p ∈ m ∧ p.1 = k := by
  simp [hasKey]

theorem dictKeys_statusList (syms : List String) (f : String → TaskOutcome) :
    dictKeys (statusList syms f) = syms := by
  simp only [dictKeys, statusList, List.map_map]
  rw [show ((fun (p : String × String) => p.1) ∘ fun sym => (sym, statusOf (f sym))) = id
    from rfl]
  exact List.map_id syms

theorem mem_statusList_snd (syms : List String) (f : String → TaskOutcome)
    (p : String × String) (h : p ∈ statusList syms f) :
    p.2 = statusOf (f p.1) := by
  rcases List.mem_map.mp h with ⟨sym, _, heq⟩
  rw [← heq]

theorem mem_okList_ok (syms : List String) (f : String → TaskOutcome)
    (pr : String × String) (h : pr ∈ okList syms f) :
    f pr.1 = TaskOutcome.ok pr.2 := by
  rcases List.mem_filterMap.mp h with ⟨sym, _, heq⟩
  cases hf : f sym with
  | ok d =>
    rw [hf] at heq
    have : (sym, d) = pr := by injection heq
    rw [← this]
    exact hf
  | fail e =>
    rw [hf] at heq
    exact Option.noConfusion heq

theorem dictKeys_rStatusList (syms : List String) (f : String → ROutcome) :
    dictKeys (rStatusList syms f) = syms := by
  simp only [dictKeys, rStatusList, List.map_map]
  rw [show ((fun (p : String × String) => p.1) ∘ fun sym => (sym, rStatusOf (f sym))) = id
    from rfl]
  exact List.map_id syms

theorem mem_rStatusList_snd (syms : List String) (f : String → ROutcome)
    (p : String × String) (h : p ∈ rStatusList syms f) :
    p.2 = rStatusOf (f p.1) := by
  rcases List.mem_map.mp h with ⟨sym, _, heq⟩
  rw [← heq]

/-- When no future fails after its data write, every `research_data` entry
comes from a successful future. -/
theorem mem_rDataList_status (syms : List String) (f : String → ROutcome)
    (hna : ∀ sym ∈ syms, ∀ d e, f sym ≠ ROutcome.failAfter d e)
    (q : String × String) (h : q ∈ rDataList syms f) :
    rStatusOf (f q.1) = "success" := by
  rcases List.mem_filterMap.mp h with ⟨sym, hsym, heq⟩
  cases hf : f sym with
  | ok d =>
    rw [hf] at heq
    have hq : (sym, d) = q := by injection heq
    have h1 : q.1 = sym := by rw [← hq]
    rw [h1, hf]
    rfl
  | failAfter d e => exact absurd hf (hna sym hsym d e)
  | fail e =>
    rw [hf] at heq
    exact Option.noConfusion heq

/-- Field view of the research write-back. -/
theorem researchWriteBack_spec (s : AgentState) (syms : List String)
    (f : String → ROutcome) :
    (researchWriteBack s syms f).symbol_status =
      dictUpdate s.symbol_status (rStatusList syms f) ∧
    (researchWriteBack s syms f).partial_success =
      (anyFailed (dictUpdate s.symbol_status (rStatusList syms f)) || s.partial_success) ∧
    (researchWriteBack s syms f).symbols = s.symbols ∧
    (researchWriteBack s syms f).research_data =
      dictUpdate s.research_data (rDataList syms f) := by
  refine ⟨?_, ?_, ?_, ?_⟩ <;>
  · simp only [researchWriteBack, update_context_size]
    cases hfl : anyFailed (dictUpdate s.symbol_status (rStatusList syms f)) <;>
      simp [hfl, apply_ite]

/-- Field view of the analyst write-back. -/
theorem analystWriteBack_spec (s : AgentState) (valid : List String)
    (g : String → TaskOutcome) :
    (analystWriteBack s valid g).symbol_status =
      dictUpdate s.symbol_status (statusList valid g) ∧
    (analystWriteBack s valid g).partial_success =
      (anyFailed (dictUpdate s.symbol_status (statusList valid g)) || s.partial_success) := by
  refine ⟨?_, ?_⟩ <;>
  · simp only [analystWriteBack, update_context_size]
    cases hfl : anyFailed (dictUpdate s.symbol_status (statusList valid g)) <;>
      simp [hfl, apply_ite]

/-- Field view of the research single-symbol write-back. -/
theorem researchSingleWriteBack_spec (s : AgentState) (sym data : String) :
    (researchSingleWriteBack s sym data).symbol_status = s.symbol_status ∧
    (researchSingleWriteBack s sym data).partial_success =
      (anyFailed s.symbol_status || s.partial_success) ∧
    (researchSingleWriteBack s sym data).symbols = s.symbols ∧
    (researchSingleWriteBack s sym data).research_data =
      dictUpd s.research_data sym data := by
  refine ⟨?_, ?_, ?_, ?_⟩ <;>
  · simp only [researchSingleWriteBack, update_context_size]
    cases hfl : anyFailed s.symbol_status <;> simp [hfl]

/-- Field view of the analyst single-symbol write-back. -/
theorem analystSingleWriteBack_spec (s : AgentState) (sym res : String) :
    (analystSingleWriteBack s sym res).symbol_status = s.symbol_status ∧
    (analystSingleWriteBack s sym res).partial_success =
      (anyFailed s.symbol_status || s.partial_success) := by
  refine ⟨?_, ?_⟩ <;>
  · simp only [analystSingleWriteBack, update_context_size]
    cases hfl : anyFailed s.symbol_status <;> simp [hfl]

/-- Field view of the research single-symbol path. -/
theorem researchRun_single_spec (s : AgentState) (f : String → ROutcome)
    (a : String) (r : AgentState) (hs : s.symbols = [a])
    (h : researchRun s f = some r) :
    r.symbol_status = s.symbol_status ∧
    r.partial_success = (anyFailed s.symbol_status || s.partial_success) ∧
    r.symbols = s.symbols ∧
    (∃ d, f a = ROutcome.ok d ∧
      r.research_data = dictUpd s.research_data a d) := by
  unfold researchRun at h
  rw [hs] at h
  cases hf : f a with
  | fail e =>
    rw [show researchRunAux s f [a] = (match f a with
      | ROutcome.ok data => some (researchSingleWriteBack s a data)
      | ROutcome.failAfter _ _ => none
      | ROutcome.fail _ => none) from rfl,
      hf] at h
    exact Option.noConfusion h
  | failAfter d e =>
    rw [show researchRunAux s f [a] = (match f a with
      | ROutcome.ok data => some (researchSingleWriteBack s a data)
      | ROutcome.failAfter _ _ => none
      | ROutcome.fail _ => none) from rfl,
      hf] at h
    exact Option.noConfusion h
  | ok d =>
    rw [show researchRunAux s f [a] = (match f a with
      | ROutcome.ok data => some (researchSingleWriteBack s a data)
      | ROutcome.failAfter _ _ => none
      | ROutcome.fail _ => none) from rfl,
      hf] at h
    have hr := Option.some.inj h
    obtain ⟨w1, w2, w3, w4⟩ := researchSingleWriteBack_spec s a d
    rw [hr] at w1 w2 w3 w4
    exact ⟨w1, w2, w3, d, rfl, w4⟩

/-- Field view of the analyst single-symbol path. -/
theorem analystRun_single_spec (s : AgentState) (g : String → TaskOutcome)
    (a : String) (r : AgentState) (hv : validSyms s = [a])
    (h : analystRun s g = some r) :
    r.symbol_status = s.symbol_status ∧
    r.partial_success = (anyFailed s.symbol_status || s.partial_success) := by
  unfold analystRun at h
  by_cases hrd : s.research_data.isEmpty = true
  · exfalso
    have : s.research_data = [] := by
      cases hrd0 : s.research_data with
      | nil => rfl
      | cons x t => rw [hrd0] at hrd; exact Bool.noConfusion hrd
    have : validSyms s = [] := by
      simp [validSyms, this, hasKey]
    rw [this] at hv
    exact List.noConfusion hv
  · rw [if_neg hrd] at h
    rw [show s.symbols.filter (fun sym => hasKey s.research_data sym) = validSyms s
      from rfl, hv] at h
    cases hg : g a with
    | fail e =>
      rw [show analystRunAux s g [a] = (match g a with
        | TaskOutcome.fail _ => none
        | TaskOutcome.ok res => some (analystSingleWriteBack s a res)) from rfl,
        hg] at h
      exact Option.noConfusion h
    | ok res =>
      rw [show analystRunAux s g [a] = (match g a with
        | TaskOutcome.fail _ => none
        | TaskOutcome.ok res => some (analystSingleWriteBack s a res)) from rfl,
        hg] at h
      have hr := Option.some.inj h
      obtain ⟨w1, w2⟩ := analystSingleWriteBack_spec s a res
      rw [hr] at w1 w2
      exact ⟨w1, w2⟩

/-- The research step establishes `partial_success = anyFailed`, and — when
no future fails after its `research_data` write — that `failed` symbols
have no research data. -/
theorem research_establishes (s0 s1 : AgentState) (f : String → ROutcome)
    (hstat0 : s0.symbol_status = []) (hpart0 : s0.partial_success = false)
    (hrd0 : s0.research_data = [])
    (hna : ∀ sym ∈ s0.symbols, ∀ d e, f sym ≠ ROutcome.failAfter d e)
    (h : researchRun s0 f = some s1) :
    s1.partial_success = anyFailed s1.symbol_status ∧
    (∀ p : String × String, p ∈ s1.symbol_status → p.2 = "failed" →
      hasKey s1.research_data p.1 = false) := by
  have hmulti : ∀ syms, s0.symbols = syms →
      s1.symbol_status = dictUpdate s0.symbol_status (rStatusList syms f) →
      s1.partial_success =
        (anyFailed (dictUpdate s0.symbol_status (rStatusList syms f)) || s0.partial_success) →
      s1.research_data = dictUpdate s0.research_data (rDataList syms f) →
      s1.partial_success = anyFailed s1.symbol_status ∧
      (∀ p : String × String, p ∈ s1.symbol_status → p.2 = "failed" →
        hasKey s1.research_data p.1 = false) := by
    intro syms hsy hstat hpart hrd
    constructor
    · rw [hstat, hpart, hpart0, Bool.or_false]
    · intro p hp hpf
      rw [hstat] at hp
      rcases mem_dictUpdate_cases _ _ _ hp with hp' | hp'
      · rw [hstat0] at hp'
        exact absurd hp' (List.not_mem_nil p)
      · have hpsnd := mem_rStatusList_snd syms f p hp'
        cases hkey : hasKey s1.research_data p.1 with
        | false => rfl
        | true =>
          exfalso
          rcases (hasKey_iff _ _).mp hkey with ⟨q, hq, hq1⟩
          rw [hrd] at hq
          rcases mem_dictUpdate_cases _ _ _ hq with hq' | hq'
          · rw [hrd0] at hq'
            exact absurd hq' (List.not_mem_nil q)
          · have hna' : ∀ sym ∈ syms, ∀ d e, f sym ≠ ROutcome.failAfter d e := by
              rw [← hsy]; exact hna
            have hok := mem_rDataList_status syms f hna' q hq'
            have h1 : rStatusOf (f p.1) = "failed" := hpsnd.symm.trans hpf
            have h2 : rStatusOf (f p.1) = "success" := by
              rw [← hq1]; exact hok
            rw [h1] at h2
            exact absurd h2 (by decide)
  cases hsy : s0.symbols with
  | nil =>
    unfold researchRun at h
    rw [hsy] at h
    have hr : researchWriteBack s0 [] f = s1 :=
      Option.some.inj (by exact h)
    obtain ⟨w1, w2, _, w4⟩ := researchWriteBack_spec s0 [] f
    rw [hr] at w1 w2 w4
    exact hmulti [] hsy w1 w2 w4
  | cons a t =>
    cases t with
    | nil =>
      obtain ⟨hstat, hpart, _, _, _, hrd⟩ :=
        researchRun_single_spec s0 f a s1 hsy h
      constructor
      · rw [hstat, hpart, hstat0, hpart0]
        rfl
      · intro p hp _
        rw [hstat, hstat0] at hp
        exact absurd hp (List.not_mem_nil p)
    | cons b u =>
      unfold researchRun at h
      rw [hsy] at h
      have hr : researchWriteBack s0 (a :: b :: u) f = s1 :=
        Option.some.inj (by exact h)
      obtain ⟨w1, w2, _, w4⟩ := researchWriteBack_spec s0 (a :: b :: u) f
      rw [hr] at w1 w2 w4
      exact hmulti (a :: b :: u) hsy w1 w2 w4

/-- The analyst step preserves the partial-success invariant, because a
symbol recorded `failed` has no research data, hence is not re-analyzed. -/
theorem analyst_preserves (s r : AgentState) (g : String → TaskOutcome)
    (P1 : s.partial_success = anyFailed s.symbol_status)
    (K : ∀ p : String × String, p ∈ s.symbol_status → p.2 = "failed" →
      hasKey s.research_data p.1 = false)
    (h : analystRun s g = some r) :
    r.partial_success = anyFailed r.symbol_status := by
  by_cases hrd : s.research_data.isEmpty = true
  · unfold analystRun at h
    rw [if_pos hrd] at h
    have : s = r := by injection h
    rw [← this]
    exact P1
  · cases hv : validSyms s with
    | nil =>
      unfold analystRun at h
      rw [if_neg hrd, show s.symbols.filter (fun sym => hasKey s.research_data sym) =
        validSyms s from rfl, hv] at h
      have hr : s = r := Option.some.inj (by exact h)
      rw [← hr]
      exact P1
    | cons a t =>
      cases t with
      | nil =>
        obtain ⟨hstat, hpart⟩ := analystRun_single_spec s g a r hv h
        rw [hstat, hpart, P1, Bool.or_self]
      | cons b u =>
        unfold analystRun at h
        rw [if_neg hrd, show s.symbols.filter (fun sym => hasKey s.research_data sym) =
          validSyms s from rfl, hv] at h
        have hr : analystWriteBack s (a :: b :: u) g = r :=
          Option.some.inj (by exact h)
        obtain ⟨w1, w2⟩ := analystWriteBack_spec s (a :: b :: u) g
        rw [hr] at w1 w2
        rw [w1, w2]
        cases hfl : anyFailed (dictUpdate s.symbol_status (statusList (a :: b :: u) g)) with
        | true => rfl
        | false =>
          rw [Bool.false_or, P1]
          cases hfl0 : anyFailed s.symbol_status with
          | false => rfl
          | true =>
            exfalso
            obtain ⟨p, hpmem, hpf⟩ := (anyFailed_iff _).mp hfl0
            have hknotdata := K p hpmem hpf
            have hnotvalid : p.1 ∉ validSyms s := by
              intro hmem
              have := (List.mem_filter.mp hmem).2
              rw [hknotdata] at this
              exact Bool.noConfusion this
            have hnotkey : p.1 ∉ dictKeys (statusList (a :: b :: u) g) := by
              rw [dictKeys_statusList, ← hv]
              exact hnotvalid
            have hsurv : p ∈ dictUpdate s.symbol_status (statusList (a :: b :: u) g) :=
              mem_dictUpdate_of_not_key _ _ _ hpmem hnotkey
            have : anyFailed (dictUpdate s.symbol_status (statusList (a :: b :: u) g)) = true :=
              (anyFailed_iff _).mpr ⟨p, hsurv, hpf⟩
            rw [hfl] at this
            exact Bool.noConfusion this

/-- The claimed invariant does hold of the intended behaviour: when no
research future fails after its `research_data` write, `partial_success`
is true iff some `symbol_status` entry is `"failed"` after the Research and
then the Analyst agent run on a fresh context. -/
theorem partial_success_iff_of_no_late_failure (q qt tx : String)
    (syms : List String) (f : String → ROutcome) (g : String → TaskOutcome)
    (s1 s2 : AgentState)
    (hna : ∀ sym ∈ syms, ∀ d e, f sym ≠ ROutcome.failAfter d e)
    (h1 : researchRun (create_initial_state q qt syms tx) f = some s1)
    (h2 : analystRun s1 g = some s2) :
    s1.partial_success = anyFailed s1.symbol_status ∧
    s2.partial_success = anyFailed s2.symbol_status := by
  obtain ⟨P1, K⟩ := research_establishes (create_initial_state q qt syms tx) s1 f
    rfl rfl rfl hna h1
  exact ⟨P1, analyst_preserves s1 s2 g P1 K h2⟩

theorem dedupFirstAux_sublist (seen : List String) (l : List String) :
    (dedupFirstAux seen l).Sublist l := by
  induction l generalizing seen with
  | nil => exact List.Sublist.refl []
  | cons x t ih =>
    unfold dedupFirstAux
    by_cases hx : x ∈ seen
    · rw [if_pos hx]
      exact (ih seen).cons x
    · rw [if_neg hx]
      exact (ih (x :: seen)).cons₂ x

theorem dedupFirstAux_not_mem_seen (seen : List String) (l : List String)
    (x : String) (h : x ∈ dedupFirstAux seen l) : x ∉ seen := by
  induction l generalizing seen with
  | nil => exact absurd h (List.not_mem_nil x)
  | cons y t ih =>
    unfold dedupFirstAux at h
    by_cases hy : y ∈ seen
    · rw [if_pos hy] at h
      exact ih seen h
    · rw [if_neg hy] at h
      rcases List.mem_cons.mp h with h | h
      · rw [h]
        exact hy
      · intro hseen
        exact ih (y :: seen) h (List.mem_cons_of_mem y hseen)

theorem dedupFirstAux_nodup (seen : List String) (l : List String) :
    (dedupFirstAux seen l).Nodup := by
  induction l generalizing seen with
  | nil => exact List.nodup_nil
  | cons y t ih =>
    unfold dedupFirstAux
    by_cases hy : y ∈ seen
    · rw [if_pos hy]
      exact ih seen
    · rw [if_neg hy]
      refine List.nodup_cons.mpr ⟨?_, ih (y :: seen)⟩
      intro hmem
      exact dedupFirstAux_not_mem_seen (y :: seen) t y hmem (List.mem_cons_self y seen)

/-- C8: every symbol `extract_symbols` returns passes `validate_symbol`
(the `^[A-Z]{1,5}(\.[A-Z]{1,2})?$` pattern, the stop-word filter and the
1-7 length bound), the returned list has no duplicates, preserves the
first-occurrence order of the validated matches (it is a sublist of them),
and holds at most 20 symbols. -/
theorem C8_extract_symbols_valid (query : String) :
    (∀ sym ∈ extract_symbols query, validate_symbol sym = true) ∧
    (extract_symbols query).Nodup ∧
    (extract_symbols query).Sublist
      (((findallSymbols query.data).map (fun cs => String.mk cs)).filter
        (fun m => validate_symbol m)) ∧
    (extract_symbols query).length ≤ 20 := by
  unfold extract_symbols
  by_cases hq : query = ""
  · rw [if_pos hq]
    exact ⟨fun sym h => absurd h (List.not_mem_nil sym), List.nodup_nil,
      List.nil_sublist _, by decide⟩
  · rw [if_neg hq]
    have hsub : ((dedupFirst (((findallSymbols query.data).map
        (fun cs => String.mk cs)).filter (fun m => validate_symbol m))).take
          MAX_SYMBOLS_PER_QUERY).Sublist
        (((findallSymbols query.data).map (fun cs => String.mk cs)).filter
          (fun m => validate_symbol m)) :=
      (List.take_sublist _ _).trans (dedupFirstAux_sublist [] _)
    refine ⟨?_, ?_, hsub, ?_⟩
    · intro sym hmem
      have := hsub.subset hmem
      exact (List.mem_filter.mp this).2
    · exact ((List.take_sublist _ _).nodup (dedupFirstAux_nodup [] _))
    · exact le_trans (List.length_take_le MAX_SYMBOLS_PER_QUERY _) (by decide)

/-- C8 witness: an extracted symbol of a concrete query is validated, and
the extraction of that query is duplicate-free. -/
theorem C8_extract_symbols_valid_witness :
    validate_symbol "AAPL" = true ∧ (extract_symbols "Analyze AAPL stock").Nodup :=
  ⟨(C8_extract_symbols_valid "Analyze AAPL stock").1 "AAPL" (by decide),
    (C8_extract_symbols_valid "Analyze AAPL stock").2.1⟩

theorem try_source_some (enabled : String → Bool) (behavior : String → TryResult)
    (src p : String) (log : List String)
    (h : try_source enabled behavior src = (some p, log)) :
    log = [src] ∧ behavior src = TryResult.ok p := by
  unfold try_source at h
  by_cases he : enabled src = true
  · rw [show (!(enabled src)) = false by rw [he]; rfl] at h
    simp only [Bool.false_eq_true, if_false] at h
    by_cases hc : src ∈ CLIENT_NAMES
    · rw [if_neg (by simpa using hc)] at h
      cases hb : behavior src with
      | ok q =>
        rw [hb] at h
        have h1 := congrArg Prod.fst h
        have h2 := congrArg Prod.snd h
        simp at h1 h2
        exact ⟨h2.symm, by rw [h1]⟩
      | empty =>
        rw [hb] at h
        have h1 := congrArg Prod.fst h
        simp at h1
      | exc m =>
        rw [hb] at h
        have h1 := congrArg Prod.fst h
        simp at h1
    · rw [if_pos (by simpa using hc)] at h
      have h1 := congrArg Prod.fst h
      simp at h1
  · rw [show (!(enabled src)) = true by
      cases henb : enabled src with
      | true => exact absurd henb he
      | false => rfl] at h
    simp only [if_true] at h
    have h1 := congrArg Prod.fst h
    simp at h1

theorem try_source_none (enabled : String → Bool) (behavior : String → TryResult)
    (src : String) (log : List String)
    (h : try_source enabled behavior src = (none, log)) :
    log = [] ∨ (log = [src] ∧ isFailTry (behavior src) = true) := by
  unfold try_source at h
  by_cases he : enabled src = true
  · rw [show (!(enabled src)) = false by rw [he]; rfl] at h
    simp only [Bool.false_eq_true, if_false] at h
    by_cases hc : src ∈ CLIENT_NAMES
    · rw [if_neg (by simpa using hc)] at h
      cases hb : behavior src with
      | ok q =>
        rw [hb] at h
        have h1 := congrArg Prod.fst h
        simp at h1
      | empty =>
        rw [hb] at h
        have h2 := congrArg Prod.snd h
        simp at h2
        exact Or.inr ⟨h2.symm, rfl⟩
      | exc m =>
        rw [hb] at h
        have h2 := congrArg Prod.snd h
        simp at h2
        exact Or.inr ⟨h2.symm, rfl⟩
    · rw [if_pos (by simpa using hc)] at h
      have h2 := congrArg Prod.snd h
      simp at h2
      exact Or.inl h2
  · rw [show (!(enabled src)) = true by
      cases henb : enabled src with
      | true => exact absurd henb he
      | false => rfl] at h
    simp only [if_true] at h
    have h2 := congrArg Prod.snd h
    simp at h2
    exact Or.inl h2

theorem prod_eq_of_fst {α β : Type} (x : α × β) (a : α) (h : x.1 = a) :
    x = (a, x.2) := by
  rw [← h]

theorem stockPriceLoop_ok (enabled : String → Bool) (behavior : String → TryResult)
    (skip : Option String) (l : List String) (r : String) (log : List String)
    (h : stockPriceLoop enabled behavior skip l = (Except.ok r, log)) :
    ∃ pre s, log = pre ++ [s] ∧ behavior s = TryResult.ok r ∧
      ∀ x ∈ pre, isFailTry (behavior x) = true := by
  induction l generalizing log with
  | nil =>
    unfold stockPriceLoop at h
    have h1 := congrArg Prod.fst h
    simp at h1
  | cons src rest ih =>
    unfold stockPriceLoop at h
    by_cases hskip : skip = some src
    · rw [if_pos hskip] at h
      exact ih log h
    · rw [if_neg hskip] at h
      cases hts : try_source enabled behavior src with
      | mk fst snd =>
        cases fst with
        | some res =>
          rw [hts] at h
          have h1 := congrArg Prod.fst h
          have h2 := congrArg Prod.snd h
          simp at h1 h2
          obtain ⟨hlog, hbeh⟩ := try_source_some enabled behavior src res snd hts
          exact ⟨[], src, by rw [← h2, hlog]; rfl, by rw [hbeh, h1],
            by intro x hx; cases hx⟩
        | none =>
          rw [hts] at h
          have h1 := congrArg Prod.fst h
          have h2 := congrArg Prod.snd h
          simp at h1 h2
          obtain ⟨pre, s, hl, hb, hf⟩ := ih _ (prod_eq_of_fst _ _ h1)
          rcases try_source_none enabled behavior src snd hts with hn | ⟨hn, hnf⟩
          · refine ⟨pre, s, ?_, hb, hf⟩
            rw [← h2, hn, List.nil_append, hl]
          · refine ⟨src :: pre, s, ?_, hb, ?_⟩
            · rw [← h2, hn, hl]
              rfl
            · intro x hx
              rcases List.mem_cons.mp hx with hx | hx
              · rw [hx]
                exact hnf
              · exact hf x hx

/-- C4: whenever `get_stock_price` succeeds, the request log consists of
the failed sources tried first and the one succeeding source last: the
dispatcher returns on the first source with a truthy result, issuing
`1 + (number of failed sources tried before the first success)` underlying
requests and invoking no further sources. -/
theorem C4_short_circuit (symbol : String) (enabled : String → Bool)
    (behavior : String → TryResult) (preferred_source : Option String)
    (p : String) (log : List String)
    (h : get_stock_price symbol enabled behavior preferred_source = (Except.ok p, log)) :
    ∃ pre s, log = pre ++ [s] ∧ behavior s = TryResult.ok p ∧
      (∀ x ∈ pre, isFailTry (behavior x) = true) ∧
      log.length = 1 + pre.length := by
  have hlen : ∀ (pre : List String) (s : String), (pre ++ [s]).length = 1 + pre.length := by
    intro pre s
    simp [Nat.add_comm]
  unfold get_stock_price at h
  by_cases hv : validate_symbol symbol = true
  · rw [show (!(validate_symbol symbol)) = false by rw [hv]; rfl] at h
    simp only [Bool.false_eq_true, if_false] at h
    by_cases hemp : (get_enabled_sources_stock_price enabled).isEmpty = true
    · rw [if_pos hemp] at h
      have h1 := congrArg Prod.fst h
      simp at h1
    · rw [if_neg hemp] at h
      cases hpref : preferred_source with
      | none =>
        rw [hpref] at h
        have h' : stockPriceLoop enabled behavior none
            (get_enabled_sources_stock_price enabled) = (Except.ok p, log) := h
        obtain ⟨pre, s, hl, hb, hf⟩ := stockPriceLoop_ok _ _ _ _ _ _ h'
        exact ⟨pre, s, hl, hb, hf, by rw [hl]; exact hlen pre s⟩
      | some pn =>
        rw [hpref] at h
        simp only at h
        by_cases hmem : normalizePreferred pn ∈ get_enabled_sources_stock_price enabled
        · rw [if_pos hmem] at h
          cases hts : try_source enabled behavior (normalizePreferred pn) with
          | mk fst snd =>
            cases fst with
            | some res =>
              rw [hts] at h
              have h' : (Except.ok res, snd) = (Except.ok p, log) := h
              have h1 := congrArg Prod.fst h'
              have h2 := congrArg Prod.snd h'
              simp at h1 h2
              obtain ⟨hlog, hbeh⟩ := try_source_some enabled behavior _ res snd hts
              refine ⟨[], normalizePreferred pn, ?_, ?_, ?_, ?_⟩
              · rw [← h2, hlog]
                rfl
              · rw [hbeh, h1]
              · intro x hx
                cases hx
              · rw [← h2, hlog]
                rfl
            | none =>
              rw [hts] at h
              have h' : ((stockPriceLoop enabled behavior (some (normalizePreferred pn))
                  (get_enabled_sources_stock_price enabled)).1,
                  snd ++ (stockPriceLoop enabled behavior (some (normalizePreferred pn))
                  (get_enabled_sources_stock_price enabled)).2) = (Except.ok p, log) := h
              have h1 := congrArg Prod.fst h'
              have h2 := congrArg Prod.snd h'
              simp only at h1 h2
              obtain ⟨pre, s, hl, hb, hf⟩ := stockPriceLoop_ok _ _ _ _ _ _
                (prod_eq_of_fst _ _ h1)
              rcases try_source_none enabled behavior _ snd hts with hn | ⟨hn, hnf⟩
              · refine ⟨pre, s, ?_, hb, hf, ?_⟩
                · rw [← h2, hn, List.nil_append, hl]
                · rw [← h2, hn, List.nil_append, hl]
                  exact hlen pre s
              · refine ⟨normalizePreferred pn :: pre, s, ?_, hb, ?_, ?_⟩
                · rw [← h2, hn, hl]
                  rfl
                · intro x hx
                  rcases List.mem_cons.mp hx with hx | hx
                  · rw [hx]
                    exact hnf
                  · exact hf x hx
                · rw [← h2, hn, hl]
                  simp [Nat.add_comm]
        · rw [if_neg hmem] at h
          have h' : stockPriceLoop enabled behavior (some (normalizePreferred pn))
              (get_enabled_sources_stock_price enabled) = (Except.ok p, log) := h
          obtain ⟨pre, s, hl, hb, hf⟩ := stockPriceLoop_ok _ _ _ _ _ _ h'
          exact ⟨pre, s, hl, hb, hf, by rw [hl]; exact hlen pre s⟩
  · rw [show (!(validate_symbol symbol)) = true by
      cases hvb : validate_symbol symbol with
      | true => exact absurd hvb hv
      | false => rfl] at h
    simp only [if_true] at h
    have h1 := congrArg Prod.fst h
    simp at h1

/-- C4 witness: one failed source, then the first success, two requests. -/
theorem C4_short_circuit_witness :
    ∃ pre s, (["yahoo_finance", "alpha_vantage"] : List String) = pre ++ [s] ∧
      c4behavior s = TryResult.ok "price42" ∧
      (∀ x ∈ pre, isFailTry (c4behavior x) = true) ∧
      (["yahoo_finance", "alpha_vantage"] : List String).length = 1 + pre.length :=
  C4_short_circuit "AAPL" (fun _ => true) c4behavior none "price42"
    ["yahoo_finance", "alpha_vantage"] (by rfl)

/-- C5 counterexample: the code also retries on a generic non-HTTP
exception (here a JSON decode error), which is outside the claim's
exhaustive retry set, so retries do not happen exactly on
{429, 5xx, connection error, timeout}. -/
theorem C5_retry_counterexample :
    (make_request c5attempts 3).2.1 = 2 ∧
    retrySpecB (c5attempts 0) = false ∧
    (make_request c5attempts 3).1 = Except.ok "payload" := by
  refine ⟨by decide, by decide, by rfl⟩

theorem reqSpec_stop (attempts : Nat → AttemptOutcome) (attempt fuel : Nat)
    (r : Except String String) :
    reqSpec attempts attempt (fuel + 1) (r, 1, []) := by
  refine ⟨?_, ?_, ?_, ?_, ?_⟩
  · show (1 : Nat) ≤ fuel + 1
    omega
  · intro _
    show (1 : Nat) ≤ 1
    omega
  · show ([] : List Nat) = (List.range (1 - 1)).map (fun i => backoff (attempt + i))
    simp
  · intro k hk
    have hk' : k + 1 < 1 := hk
    exact absurd hk' (by omega)
  · intro k st hk _ _
    have hk' : k < 1 := hk
    show (1 : Nat) = k + 1
    omega

theorem reqSpec_retry (attempts : Nat → AttemptOutcome) (maxR attempt fuel : Nat)
    (msg : String) (harith : attempt + (fuel + 1) = maxR)
    (hretry : retryCodeB (attempts attempt) = true)
    (hno4 : ∀ st, attempts attempt = AttemptOutcome.http st →
      ¬(st = 400 ∨ st = 401 ∨ st = 403 ∨ st = 404))
    (ihs : reqSpec attempts (attempt + 1) fuel (runFrom attempts maxR (attempt + 1) fuel)) :
    reqSpec attempts attempt (fuel + 1)
      (retryOr (runFrom attempts maxR (attempt + 1) fuel)
        (decide (attempt < maxR - 1)) attempt msg) := by
  unfold retryOr
  by_cases hlt : attempt < maxR - 1
  · rw [if_pos (by simpa using hlt)]
    obtain ⟨a1, a2, a3, a4, a5⟩ := ihs
    have hfuel1 : 1 ≤ fuel := by omega
    have hn1 : 1 ≤ (runFrom attempts maxR (attempt + 1) fuel).2.1 := a2 hfuel1
    refine ⟨?_, ?_, ?_, ?_, ?_⟩
    · show (runFrom attempts maxR (attempt + 1) fuel).2.1 + 1 ≤ fuel + 1
      omega
    · intro _
      show (1 : Nat) ≤ (runFrom attempts maxR (attempt + 1) fuel).2.1 + 1
      omega
    · show backoff attempt :: (runFrom attempts maxR (attempt + 1) fuel).2.2 =
        (List.range ((runFrom attempts maxR (attempt + 1) fuel).2.1 + 1 - 1)).map
          (fun i => backoff (attempt + i))
      obtain ⟨n', hn'⟩ : ∃ n', (runFrom attempts maxR (attempt + 1) fuel).2.1 = n' + 1 :=
        ⟨(runFrom attempts maxR (attempt + 1) fuel).2.1 - 1, by omega⟩
      rw [a3, hn']
      simp only [Nat.add_sub_cancel, List.range_succ_eq_map, List.map_cons, List.map_map]
      refine congrArg₂ List.cons (by simp [backoff]) ?_
      apply List.map_congr_left
      intro i _
      show backoff (attempt + 1 + i) = backoff (attempt + (i + 1))
      exact congrArg backoff (by omega)
    · intro k hk
      have hk2 : k + 1 < (runFrom attempts maxR (attempt + 1) fuel).2.1 + 1 := hk
      cases k with
      | zero => simpa using hretry
      | succ k' =>
        have hlt' : k' + 1 < (runFrom attempts maxR (attempt + 1) fuel).2.1 := by omega
        have := a4 k' hlt'
        rw [show attempt + (k' + 1) = attempt + 1 + k' from by omega]
        exact this
    · intro k st hk hout h4
      have hk2 : k < (runFrom attempts maxR (attempt + 1) fuel).2.1 + 1 := hk
      show (runFrom attempts maxR (attempt + 1) fuel).2.1 + 1 = k + 1
      cases k with
      | zero =>
        exact absurd h4 (hno4 st (by simpa using hout))
      | succ k' =>
        have hlt' : k' < (runFrom attempts maxR (attempt + 1) fuel).2.1 := by omega
        have := a5 k' st hlt'
          (by rw [show attempt + 1 + k' = attempt + (k' + 1) from by omega]; exact hout) h4
        omega
  · rw [if_neg (by simpa using hlt)]
    exact reqSpec_stop attempts attempt fuel (Except.error msg)

theorem runFrom_reqSpec (attempts : Nat → AttemptOutcome) (maxR : Nat) :
    ∀ fuel attempt, attempt + fuel = maxR →
      reqSpec attempts attempt fuel (runFrom attempts maxR attempt fuel) := by
  intro fuel
  induction fuel with
  | zero =>
    intro attempt _
    refine ⟨?_, ?_, ?_, ?_, ?_⟩
    · show (0 : Nat) ≤ 0
      omega
    · intro hcon
      exact absurd hcon (by omega)
    · show ([] : List Nat) = (List.range (0 - 1)).map (fun i => backoff (attempt + i))
      simp
    · intro k hk
      have hk' : k + 1 < 0 := hk
      exact absurd hk' (by omega)
    · intro k st hk
      have hk' : k < 0 := hk
      exact absurd hk' (by omega)
  | succ fuel ih =>
    intro attempt harith
    have harith' : (attempt + 1) + fuel = maxR := by omega
    cases hc : attempts attempt with
    | success p =>
      have hred : runFrom attempts maxR attempt (fuel + 1) = (Except.ok p, 1, []) := by
        simp only [runFrom, hc]
      rw [hred]
      exact reqSpec_stop attempts attempt fuel (Except.ok p)
    | http st =>
      by_cases h429 : st = 429
      · have hred : runFrom attempts maxR attempt (fuel + 1) =
            retryOr (runFrom attempts maxR (attempt + 1) fuel)
              (decide (attempt < maxR - 1)) attempt
              "Request failed after all attempts" := by
          simp only [runFrom, hc, if_pos h429]
        rw [hred]
        refine reqSpec_retry attempts maxR attempt fuel _ harith ?_ ?_
          (ih (attempt + 1) harith')
        · simp [retryCodeB, hc, h429]
        · intro st' hst' h4
          rw [hc] at hst'
          injection hst' with he
          rcases h4 with h4 | h4 | h4 | h4 <;> omega
      · by_cases h401 : st = 401
        · have hred : runFrom attempts maxR attempt (fuel + 1) =
              (Except.error "Authentication failed", 1, []) := by
            simp only [runFrom, hc, if_neg h429, if_pos h401]
          rw [hred]
          exact reqSpec_stop attempts attempt fuel _
        · by_cases h403 : st = 403
          · have hred : runFrom attempts maxR attempt (fuel + 1) =
                (Except.error "Access forbidden", 1, []) := by
              simp only [runFrom, hc, if_neg h429, if_neg h401, if_pos h403]
            rw [hred]
            exact reqSpec_stop attempts attempt fuel _
          · by_cases h404 : st = 404
            · have hred : runFrom attempts maxR attempt (fuel + 1) =
                  (Except.error "Resource not found", 1, []) := by
                simp only [runFrom, hc, if_neg h429, if_neg h401, if_neg h403, if_pos h404]
              rw [hred]
              exact reqSpec_stop attempts attempt fuel _
            · by_cases h500 : 500 ≤ st
              · have hred : runFrom attempts maxR attempt (fuel + 1) =
                    retryOr (runFrom attempts maxR (attempt + 1) fuel)
                      (decide (attempt < maxR - 1)) attempt
                      "Request failed after all attempts" := by
                  simp only [runFrom, hc, if_neg h429, if_neg h401, if_neg h403,
                    if_neg h404, if_pos h500]
                rw [hred]
                refine reqSpec_retry attempts maxR attempt fuel _ harith ?_ ?_
                  (ih (attempt + 1) harith')
                · simp [retryCodeB, hc, h500]
                · intro st' hst' h4
                  rw [hc] at hst'
                  injection hst' with he
                  rcases h4 with h4 | h4 | h4 | h4 <;> omega
              · have hred : runFrom attempts maxR attempt (fuel + 1) =
                    (Except.error "HTTP error", 1, []) := by
                  simp only [runFrom, hc, if_neg h429, if_neg h401, if_neg h403,
                    if_neg h404, if_neg h500]
                rw [hred]
                exact reqSpec_stop attempts attempt fuel _
    | timedOut =>
      have hred : runFrom attempts maxR attempt (fuel + 1) =
          retryOr (runFrom attempts maxR (attempt + 1) fuel)
            (decide (attempt < maxR - 1)) attempt
            "Request failed after all attempts" := by
        simp only [runFrom, hc]
      rw [hred]
      refine reqSpec_retry attempts maxR attempt fuel _ harith ?_ ?_
        (ih (attempt + 1) harith')
      · simp [retryCodeB, hc]
      · intro st' hst' _
        rw [hc] at hst'
        exact AttemptOutcome.noConfusion hst'
    | connError m =>
      have hred : runFrom attempts maxR attempt (fuel + 1) =
          retryOr (runFrom attempts maxR (attempt + 1) fuel)
            (decide (attempt < maxR - 1)) attempt
            "Request failed after all attempts" := by
        simp only [runFrom, hc]
      rw [hred]
      refine reqSpec_retry attempts maxR attempt fuel _ harith ?_ ?_
        (ih (attempt + 1) harith')
      · simp [retryCodeB, hc]
      · intro st' hst' _
        rw [hc] at hst'
        exact AttemptOutcome.noConfusion hst'
    | otherExc m =>
      have hred : runFrom attempts maxR attempt (fuel + 1) =
          retryOr (runFrom attempts maxR (attempt + 1) fuel)
            (decide (attempt < maxR - 1)) attempt m := by
        simp only [runFrom, hc]
      rw [hred]
      refine reqSpec_retry attempts maxR attempt fuel _ harith ?_ ?_
        (ih (attempt + 1) harith')
      · simp [retryCodeB, hc]
      · intro st' hst' _
        rw [hc] at hst'
        exact AttemptOutcome.noConfusion hst'

/-- C5 (amended): every request is attempted at most 3 times; every retry
sleeps `2^attempt` seconds (the backoff schedule is exactly
`[2^0, 2^1, …]`); a retry happens only on 429, 5xx, connection errors,
timeouts — or any other non-HTTP exception (the code's extra catch-all);
and a 400/401/403/404 response ends the loop immediately with no retry. -/
theorem C5_retry_policy (attempts : Nat → AttemptOutcome) :
    (make_request attempts 3).2.1 ≤ 3 ∧
    1 ≤ (make_request attempts 3).2.1 ∧
    (make_request attempts 3).2.2 =
      (List.range ((make_request attempts 3).2.1 - 1)).map (fun a => 2 ^ a) ∧
    (∀ k, k + 1 < (make_request attempts 3).2.1 → retryCodeB (attempts k) = true) ∧
    (∀ k st, k < (make_request attempts 3).2.1 →
      attempts k = AttemptOutcome.http st →
      (st = 400 ∨ st = 401 ∨ st = 403 ∨ st = 404) →
      (make_request attempts 3).2.1 = k + 1) := by
  obtain ⟨a1, a2, a3, a4, a5⟩ := runFrom_reqSpec attempts 3 3 0 rfl
  refine ⟨a1, a2 (by omega), ?_, ?_, ?_⟩
  · show (runFrom attempts 3 0 3).2.2 =
      (List.range ((runFrom attempts 3 0 3).2.1 - 1)).map (fun a => 2 ^ a)
    rw [a3]
    apply List.map_congr_left
    intro i _
    show backoff (0 + i) = 2 ^ i
    simp [backoff]
  · intro k hk
    have hk' : k + 1 < (runFrom attempts 3 0 3).2.1 := hk
    have := a4 k hk'
    simpa using this
  · intro k st hk h h4
    have hk' : k < (runFrom attempts 3 0 3).2.1 := hk
    show (runFrom attempts 3 0 3).2.1 = k + 1
    exact a5 k st hk' (by simpa using h) h4

/-- C5 witness: the amended policy applied to a concrete retrying run. -/
theorem C5_retry_policy_witness :
    retryCodeB (c5attempts2 0) = true ∧
    (make_request c5attempts2 3).2.2 =
      (List.range ((make_request c5attempts2 3).2.1 - 1)).map (fun a => 2 ^ a) :=
  ⟨(C5_retry_policy c5attempts2).2.2.2.1 0 (by decide),
    (C5_retry_policy c5attempts2).2.2.1⟩

end FinGPT
